import Mathlib

/-!
Verification of the FreakWAN mesh-messaging core.

We give a shallow embedding, over `List Nat` byte strings, of the parts of
the FreakWAN firmware relevant to its specification: the SHA-256 / HMAC
primitives (src/hmac.py, plus a model of the external `hashlib.sha256`),
the keychain with authenticated encryption (src/keychain.py), the message
codec (src/message.py), the duty-cycle tracker (src/dutycycle.py), the
append-only history journal (src/history.py), and the mesh engine logic of
src/freakwan.py (send queue, dedup cache, relay, ack handling).

Bytes are modelled as `Nat` (with `% 256` or `&&&` masks exactly where the
source masks), byte strings as `List Nat`, Python dicts as insertion-ordered
association lists, and the monotonic clocks as explicit `Int` parameters.
Fallible operations return `Option`: `none` models a raised-and-caught
exception or a `None`/`False` result, as documented at each definition.
-/

namespace FreakWAN

/-- 32-bit right rotation, on naturals below `2^32`. -/
def rotr32 (n x : Nat) : Nat := ((x >>> n) ||| (x <<< (32 - n))) % 4294967296

/-- Big-endian split of a byte list into 32-bit words (groups of 4 bytes). -/
def bytesToWordsBE : List Nat → List Nat
  | a :: b :: c :: d :: rest =>
      (a * 16777216 + b * 65536 + c * 256 + d) :: bytesToWordsBE rest
  | _ => []

/-- Big-endian bytes of one 32-bit word. -/
def wordToBytesBE (w : Nat) : List Nat :=
  [w / 16777216 % 256, w / 65536 % 256, w / 256 % 256, w % 256]

/-- Big-endian 8-byte encoding of a 64-bit length field. -/
def len64be (n : Nat) : List Nat :=
  [n / 2 ^ 56 % 256, n / 2 ^ 48 % 256, n / 2 ^ 40 % 256, n / 2 ^ 32 % 256,
   n / 2 ^ 24 % 256, n / 2 ^ 16 % 256, n / 2 ^ 8 % 256, n % 256]

/-- The 64 SHA-256 round constants (FIPS 180-4). -/
def sha256K : List Nat :=
  [1116352408, 1899447441, 3049323471, 3921009573, 961987163, 1508970993,
   2453635748, 2870763221, 3624381080, 310598401, 607225278, 1426881987,
   1925078388, 2162078206, 2614888103, 3248222580, 3835390401, 4022224774,
   264347078, 604807628, 770255983, 1249150122, 1555081692, 1996064986,
   2554220882, 2821834349, 2952996808, 3210313671, 3336571891, 3584528711,
   113926993, 338241895, 666307205, 773529912, 1294757372, 1396182291,
   1695183700, 1986661051, 2177026350, 2456956037, 2730485921, 2820302411,
   3259730800, 3345764771, 3516065817, 3600352804, 4094571909, 275423344,
   430227734, 506948616, 659060556, 883997877, 958139571, 1322822218,
   1537002063, 1747873779, 1955562222, 2024104815, 2227730452, 2361852424,
   2428436474, 2756734187, 3204031479, 3329325298]

/-- SHA-256 initial hash value (FIPS 180-4). -/
def sha256H0 : List Nat :=
  [1779033703, 3144134277, 1013904242, 2773480762, 1359893119, 2600822924,
   528734635, 1541459225]

def bigSigma0 (x : Nat) : Nat := rotr32 2 x ^^^ rotr32 13 x ^^^ rotr32 22 x
def bigSigma1 (x : Nat) : Nat := rotr32 6 x ^^^ rotr32 11 x ^^^ rotr32 25 x
def smallSigma0 (x : Nat) : Nat := rotr32 7 x ^^^ rotr32 18 x ^^^ (x >>> 3)
def smallSigma1 (x : Nat) : Nat := rotr32 17 x ^^^ rotr32 19 x ^^^ (x >>> 10)
def chWord (x y z : Nat) : Nat := (x &&& y) ^^^ ((x ^^^ 0xffffffff) &&& z)
def majWord (x y z : Nat) : Nat := (x &&& y) ^^^ (x &&& z) ^^^ (y &&& z)

/-- Extend the 16 message-schedule words to 64 (48 extension steps). -/
def sha256Schedule : Nat → List Nat → List Nat
  | 0, w => w
  | fuel + 1, w =>
      let n := w.length
      let next := (smallSigma1 (w.getD (n - 2) 0) + w.getD (n - 7) 0 +
                   smallSigma0 (w.getD (n - 15) 0) + w.getD (n - 16) 0) % 4294967296
      sha256Schedule fuel (w ++ [next])

/-- One SHA-256 compression round step on the 8-word working state. -/
def sha256Step (st : List Nat) (kw : Nat × Nat) : List Nat :=
  match st with
  | [a, b, c, d, e, f, g, h] =>
      let t1 := (h + bigSigma1 e + chWord e f g + kw.1 + kw.2) % 4294967296
      let t2 := (bigSigma0 a + majWord a b c) % 4294967296
      [(t1 + t2) % 4294967296, a, b, c, (d + t1) % 4294967296, e, f, g]
  | st => st

/-- SHA-256 compression of a single 64-byte block into the running hash. -/
def sha256Compress (h : List Nat) (block : List Nat) : List Nat :=
  let w := sha256Schedule 48 (bytesToWordsBE block)
  let fin := (sha256K.zip w).foldl sha256Step h
  (h.zip fin).map (fun p => (p.1 + p.2) % 4294967296)

/-- SHA-256 padding: append `0x80`, zeros, and the 64-bit bit length. -/
def sha256Pad (msg : List Nat) : List Nat :=
  let z := (119 - msg.length % 64) % 64
  msg ++ [0x80] ++ List.replicate z 0 ++ len64be (8 * msg.length)

/-- Split a byte list into 64-byte blocks (fuel-driven, kernel-friendly). -/
def splitBlocks : Nat → List Nat → List (List Nat)
  | 0, _ => []
  | _, [] => []
  | fuel + 1, bs => bs.take 64 :: splitBlocks fuel (bs.drop 64)

/-- Model of the external `hashlib.sha256(...).digest()`: the SHA-256 digest
(32 bytes) of a byte string, per FIPS 180-4. -/
def sha256 (msg : List Nat) : List Nat :=
  let padded := sha256Pad msg
  ((splitBlocks padded.length padded).foldl sha256Compress sha256H0).map
    wordToBytesBE |>.flatten

/-- `Keychain.sha16`: the SHA-256 digest truncated to 16 bytes. -/
def sha16 (data : List Nat) : List Nat := (sha256 data).take 16

/-- RFC 2104 HMAC-SHA256 from src/hmac.py, on byte lists.  The source
raises `ValueError` for keys longer than 64 bytes; every call site in the
repository passes a key of at most 32 bytes, and our theorems only use such
keys, so the embedding is total. -/
def HMAC_SHA256 (key msg : List Nat) : List Nat :=
  let ipad := (List.range 64).map
    (fun i => if i < key.length then key.getD i 0 ^^^ 0x36 else 0x36)
  let opad := (List.range 64).map
    (fun i => if i < key.length then key.getD i 0 ^^^ 0x5c else 0x5c)
  sha256 (opad ++ sha256 (ipad ++ msg))

/-! ## Keychain (src/keychain.py) -/

/-- The ASCII bytes of the key-derivation label `"AES14159265358979323846"`. -/
def aesLabel : List Nat :=
  [65, 69, 83, 49, 52, 49, 53, 57, 50, 54, 53, 51, 53, 56, 57, 55, 57, 51,
   50, 51, 56, 52, 54]

/-- The ASCII bytes of the key-derivation label `"MAC26433832795028841971"`. -/
def macLabel : List Nat :=
  [77, 65, 67, 50, 54, 52, 51, 51, 56, 51, 50, 55, 57, 53, 48, 50, 56, 56,
   52, 49, 57, 55, 49]

/-- `Keychain.derive_keys`: from a stored key value derive the AES subkey
(first 16 bytes of `HMAC_SHA256(key, "AES…")`) and the HMAC subkey
(`HMAC_SHA256(key, "MAC…")`). -/
def kcDeriveKeys (key : List Nat) : List Nat × List Nat :=
  ((HMAC_SHA256 key aesLabel).take 16, HMAC_SHA256 key macLabel)

/-- The value `Keychain.load_keys` stores in `self.keys` for a raw on-disk
secret `raw`: `self.keys[key_name] = self.sha16(key)`, i.e. the SHA-256
digest of the raw secret truncated to 16 bytes. -/
def kcStoredKey (raw : List Nat) : List Nat := sha16 raw

/-- An in-memory keychain: the `self.keys` dict, an insertion-ordered map
from key name to the stored (already `sha16`-hashed) key material. -/
abbrev Keychain := List (String × List Nat)

/-- `Keychain.encrypt`.  `aesEnc key iv data` models the external
`cryptolib.aes(key, 2, iv).encrypt(data)` (AES-128-CBC); `ivrand` models the
four `urandom.getrandbits(8)` draws used for the IV-entropy field.  `none`
models the exception raised when `key_name` is not in the keychain.  The
source masks the Relayed flag bit and zeroes the ttl byte in the buffer that
is hashed and MACed (`pre11`), and restores the original flags/ttl bytes
into the returned packet at the end. -/
def kcEncrypt (aesEnc : List Nat → List Nat → List Nat → List Nat)
    (ivrand : List Nat) (keys : Keychain) (packet : List Nat)
    (keyName : String) : Option (List Nat) :=
  match (keys.find? (fun p => p.1 == keyName)).map Prod.snd with
  | none => none
  | some key =>
    let aesKey := (kcDeriveKeys key).1
    let hmacKey := (kcDeriveKeys key).2
    let dataLen := packet.length - 7
    let paddingLen := (16 - dataLen % 16) % 16
    let pre11 : List Nat :=
      [packet.getD 0 0, packet.getD 1 0 &&& 0xfe, packet.getD 2 0,
       packet.getD 3 0, packet.getD 4 0, packet.getD 5 0, 0] ++ ivrand.take 4
    let iv := sha16 pre11
    let ct := aesEnc aesKey iv (packet.drop 7 ++ List.replicate paddingLen 0)
    let hm := (HMAC_SHA256 hmacKey (pre11 ++ ct)).take 10
    let tag := hm.take 9 ++ [(hm.getD 9 0 &&& 0xf0) ||| paddingLen]
    some (packet.take 7 ++ ivrand.take 4 ++ ct ++ tag)

/-- The per-key MAC test inside `Keychain.decrypt`: recompute the 10-byte
HMAC over the canonicalized packet minus its tag, mask the padding nibble of
its last byte, and compare with the received tag. -/
def kcMacMatches (key : List Nat) (body tagHM : List Nat) : Bool :=
  let hmacKey := (kcDeriveKeys key).2
  let myHm := (HMAC_SHA256 hmacKey body).take 10
  tagHM == myHm.take 9 ++ [myHm.getD 9 0 &&& 0xf0]

/-- `Keychain.decrypt`: try every key in insertion order; on the first key
whose MAC matches, CBC-decrypt and strip IV field, padding and tag.  `none`
models the `None` return (packet too short, or no key matches).  `copy` is
the received packet with the Relayed bit cleared, the ttl byte zeroed and
the padding-length nibble of the last byte cleared, exactly as the source
canonicalizes it before recomputing the MAC — here factored out as
`kcCanon`. -/
def kcCanon (encr : List Nat) : List Nat :=
  let n := encr.length
  [encr.getD 0 0, encr.getD 1 0 &&& 0xfe, encr.getD 2 0, encr.getD 3 0,
   encr.getD 4 0, encr.getD 5 0, 0]
  ++ (encr.drop 7).take (n - 17)
  ++ (encr.drop (n - 10)).take 9 ++ [encr.getD (n - 1) 0 &&& 0xf0]

/-- Body of `Keychain.decrypt` over the canonicalized copy. -/
def kcDecrypt (aesDec : List Nat → List Nat → List Nat → List Nat)
    (keys : Keychain) (encr : List Nat) : Option (String × List Nat) :=
  if encr.length < 22 then none
  else
    let n := encr.length
    let copy : List Nat := kcCanon encr
    let padlen := encr.getD (n - 1) 0 &&& 0x0f
    let hm := copy.drop (n - 10)
    match keys.find? (fun p => kcMacMatches p.2 (copy.take (n - 10)) hm) with
    | none => none
    | some (keyName, key) =>
      let aesKey := (kcDeriveKeys key).1
      let iv := sha16 (copy.take 11)
      let plain := aesDec aesKey iv ((encr.drop 11).take (n - 21))
      some (keyName, encr.take 7 ++ plain.take (plain.length - padlen))

/-! ## Message codec (src/message.py) -/

/-- The 6-byte device address, `machine.unique_id()[-6:]`.  The concrete
value is board-specific; decode overwrites it on every wire path our
theorems reason about. -/
def deviceId : List Nat := [0, 0, 0, 0, 0, 0]

/-- A FreakWAN message object (class `Message`), with the in-memory
annotations of `Message.__init__`.  Text-like fields (`nick`, `text`) are
modelled as their UTF-8 byte strings.  The defaults are those of
`Message.__init__` (`uid`, `ctime` and `send_time` default to a fresh
random value resp. the current clock in the source; decode overwrites them
on the paths we reason about, and our engine model sets them explicitly). -/
structure Msg where
  type : Nat := 0
  flags : Nat := 0
  nick : List Nat := []
  text : List Nat := []
  mediaType : Nat := 255
  mediaData : List Nat := []
  uid : Nat := 0
  sender : List Nat := deviceId
  ttl : Nat := 15
  ackType : Nat := 0
  seen : Nat := 0
  rssi : Int := 0
  keyName : Option String := none
  noKey : Bool := false
  packet : List Nat := []
  ctime : Int := 0
  sendTime : Int := 0
  numTx : Nat := 1
  acks : List (List Nat) := []
  sendCanceled : Bool := false
  deriving Repr, DecidableEq

/-- Little-endian 4-byte encoding of a 32-bit integer (`struct.pack "<L"`). -/
def le4 (n : Nat) : List Nat :=
  [n % 256, n / 256 % 256, n / 65536 % 256, n / 16777216 % 256]

/-- Little-endian read of a 32-bit integer from the first 4 bytes. -/
def readLE4 (bs : List Nat) : Nat :=
  bs.getD 0 0 + bs.getD 1 0 * 256 + bs.getD 2 0 * 65536 +
    bs.getD 3 0 * 16777216

/-- `struct.pack "6s"`: truncate or zero-pad a byte string to 6 bytes. -/
def pack6s (s : List Nat) : List Nat := (s ++ List.replicate 6 0).take 6

/-- `Message.encode`.  `kc` is the optional keychain argument; `aesEnc` and
`ivrand` parameterize the encryption primitive and IV randomness used when
a `key_name` is attached.  `none` models both the `None` return for an
unknown message type and the exception raised on the
key-name-without-keychain path (the source calls an undefined `printf`
there, raising `NameError`). -/
def msgEncode (aesEnc : List Nat → List Nat → List Nat → List Nat)
    (ivrand : List Nat) (kc : Option Keychain) (m : Msg) :
    Option (List Nat) :=
  if m.noKey then
    some ([m.type % 256, m.flags % 256] ++ le4 m.uid ++ [m.ttl % 256] ++
          m.packet.drop 7)
  else if m.type = 0 then
    let encrFlag := if m.keyName.isSome then 16 else 0
    let encoded := [m.type % 256, (m.flags ||| encrFlag) % 256] ++ le4 m.uid
      ++ [m.ttl % 256] ++ pack6s m.sender ++ [m.nick.length % 256] ++ m.nick
      ++ (if m.flags &&& 8 ≠ 0 then [m.mediaType % 256] ++ m.mediaData
          else m.text)
    match m.keyName with
    | some name =>
        match kc with
        | some keys => kcEncrypt aesEnc ivrand keys encoded name
        | none => none
    | none => some encoded
  else if m.type = 1 then
    some ([m.type % 256, m.flags % 256] ++ le4 m.uid ++ [m.ackType % 256] ++
          m.sender)
  else if m.type = 2 then
    some ([m.type % 256, m.flags % 256] ++ pack6s m.sender ++
          [m.seen % 256, m.nick.length % 256] ++ m.nick ++ m.text)
  else none

/-- UTF-8 validity as checked by the runtime's `bytes.decode("utf-8")`
(MicroPython `utf8_check`): lead bytes `0xC0–0xDF/0xE0–0xEF/0xF0–0xF7` must
be followed by exactly 1/2/3 continuation bytes `0x80–0xBF`, bytes `≥ 0xF8`
and stray continuation bytes are rejected. -/
def utf8CheckFrom : Nat → List Nat → Bool
  | need, [] => need == 0
  | need, c :: rest =>
      if need > 0 then
        if 0x80 ≤ c ∧ c < 0xC0 then utf8CheckFrom (need - 1) rest else false
      else if c < 0x80 then utf8CheckFrom 0 rest
      else if c < 0xC0 then false
      else if c < 0xE0 then utf8CheckFrom 1 rest
      else if c < 0xF0 then utf8CheckFrom 2 rest
      else if c < 0xF8 then utf8CheckFrom 3 rest
      else false

/-- UTF-8 validity of a whole byte string. -/
def utf8Check (bs : List Nat) : Bool := utf8CheckFrom 0 bs

/-- The per-type decoding step of `Message.decode`, after the optional
decryption step: `msg` is the (possibly decrypted) frame, `mtype` the type
byte of the frame as received, `keyName` the key that decrypted it (if
any).  `none` models a caught exception (truncated fields, invalid UTF-8,
missing media-type byte) or the `False` return for an unknown type. -/
def msgDecodeBody (keyName : Option String) (mtype : Nat)
    (msg : List Nat) : Option Msg :=
  if mtype = 0 then
    if msg.length < 14 then none
    else
      let nickLen := msg.getD 13 0
      let nick := (msg.drop 14).take nickLen
      if utf8Check nick then
        let flags := msg.getD 1 0
        let rest := msg.drop (14 + nickLen)
        let base : Msg :=
          { type := msg.getD 0 0, flags := flags, uid := readLE4 (msg.drop 2),
            ttl := msg.getD 6 0, sender := (msg.drop 7).take 6, nick := nick,
            keyName := keyName }
        if flags &&& 8 ≠ 0 then
          match rest with
          | [] => none
          | mt :: md => some { base with mediaType := mt, mediaData := md }
        else if utf8Check rest then some { base with text := rest }
        else none
      else none
  else if mtype = 1 then
    if msg.length < 13 then none
    else
      some { type := msg.getD 0 0, flags := msg.getD 1 0,
             uid := readLE4 (msg.drop 2), ackType := msg.getD 6 0,
             sender := (msg.drop 7).take 6 }
  else if mtype = 2 then
    if msg.length < 10 then none
    else
      let nickLen := msg.getD 9 0
      let nick := (msg.drop 10).take nickLen
      let text := msg.drop (10 + nickLen)
      if utf8Check nick ∧ utf8Check text then
        some { type := msg.getD 0 0, flags := msg.getD 1 0,
               sender := (msg.drop 2).take 6, seen := msg.getD 8 0,
               nick := nick, text := text }
      else none
  else none

/-- `Message.decode` (as used through `Message.from_encoded`): returns the
decoded message, or `none` when decode returns `False` (every exception is
caught and turned into `False`).  For an encrypted Data frame that no key
decrypts, the message is returned with `noKey := true` and the raw frame
preserved in `packet`, exactly as in the source. -/
def msgDecode (aesDec : List Nat → List Nat → List Nat → List Nat)
    (kc : Option Keychain) (bs : List Nat) : Option Msg :=
  if bs.length < 2 then none
  else
    let mtype := bs.getD 0 0
    let flags0 := bs.getD 1 0
    if mtype = 0 ∧ flags0 &&& 16 ≠ 0 then
      let plain :=
        match kc with
        | none => none
        | some keys => kcDecrypt aesDec keys bs
      match plain with
      | none =>
          if bs.length < 7 then none
          else some { type := bs.getD 0 0, flags := bs.getD 1 0,
                      uid := readLE4 (bs.drop 2), ttl := bs.getD 6 0,
                      noKey := true, packet := bs }
      | some (name, pmsg) => msgDecodeBody (some name) mtype pmsg
    else msgDecodeBody none mtype bs

/-! ## Duty-cycle tracker (src/dutycycle.py) -/

/-- One slot of the duty-cycle ring: total transmit time (ms) and the epoch
it was last written in (`-1` marks a slot never yet populated). -/
structure DSlot where
  txtime : Nat
  epoch : Int
  deriving Repr, DecidableEq

/-- The `DutyCycle` tracker state.  `slots_num` is `slots.length`;
`txStartTime = -1` encodes "no transmission in progress". -/
structure DutyCycle where
  slotsDur : Nat := 900
  slots : List DSlot := List.replicate 4 ⟨0, -1⟩
  txStartTime : Int := -1
  deriving Repr, DecidableEq

/-- `DutyCycle.get_epoch`: wall-clock seconds divided by the slot
duration. -/
def dutyGetEpoch (nowSec : Nat) (d : DutyCycle) : Int := (nowSec / d.slotsDur : Nat)

/-- `DutyCycle.start_tx`: record the transmission start timestamp. -/
def dutyStartTx (nowMs : Int) (d : DutyCycle) : DutyCycle :=
  { d with txStartTime := nowMs }

/-- `DutyCycle.get_current_tx_time`: elapsed ms of the in-flight
transmission, `0` if none. -/
def dutyGetCurrentTxTime (nowMs : Int) (d : DutyCycle) : Int :=
  if d.txStartTime = -1 then 0 else nowMs - d.txStartTime

/-- `DutyCycle.end_tx`: add the elapsed transmit time into the current
slot, rotating the slot if its stored epoch is stale. -/
def dutyEndTx (nowMs : Int) (nowSec : Nat) (d : DutyCycle) : DutyCycle :=
  let txtime := dutyGetCurrentTxTime nowMs d
  let epoch := dutyGetEpoch nowSec d
  let idx := (epoch % d.slots.length).toNat
  let slot := d.slots.getD idx ⟨0, -1⟩
  let slot := if slot.epoch ≠ epoch then { txtime := 0, epoch := epoch } else slot
  { d with slots := d.slots.set idx { slot with txtime := slot.txtime + txtime.toNat },
           txStartTime := -1 }

/-- `DutyCycle.get_duty_cycle`: the percentage of transmit time over the
slots still inside the window (a slot counts iff its epoch is greater than
`max(epoch - slots_num, 0)`), as an exact rational. -/
def dutyGetDutyCycle (nowSec : Nat) (d : DutyCycle) : ℚ :=
  let epoch := dutyGetEpoch nowSec d
  let valid := d.slots.filter (fun s => s.epoch > max (epoch - d.slots.length) 0)
  let txtime := (valid.map (·.txtime)).sum
  if valid.length = 0 then 0
  else (txtime : ℚ) / (d.slotsDur * valid.length * 1000) * 100

/-! ## History journal (src/history.py) -/

/-- The persistent journal: two files of fixed-size records.  Each file is
modelled as the list of the record payloads it stores, oldest first; on
disk each record is a 4-byte little-endian length, the payload, and zero
padding up to `recordsize`, so the record count of a file is its byte
length divided by `recordsize + 4` and reading a record reproduces the
payload exactly.  A missing file and an empty file both read as zero
records, and are modelled as `[]`. -/
structure HState where
  histlen : Nat := 100
  recordsize : Nat := 256
  file0 : List (List Nat) := []
  file1 : List (List Nat) := []
  deriving Repr, DecidableEq

/-- `History.get_file_size` for files 0 and 1, in records. -/
def hFileLen (h : HState) (i : Nat) : Nat :=
  if i = 0 then h.file0.length else h.file1.length

/-- `History.select_file`: pick the file to append to.  In the equal-length
branch the source also deletes file 1, so the state can change. -/
def selectFile (h : HState) : Nat × HState :=
  let len0 := h.file0.length
  let len1 := h.file1.length
  if len0 = len1 then (0, { h with file1 := [] })
  else if len0 = 0 ∨ len1 = 0 then
    let file := if len0 ≠ 0 then 0 else 1
    let fileLen := max len0 len1
    if fileLen ≤ h.histlen then (file, h) else ((file + 1) % 2, h)
  else if len0 < len1 then (0, h) else (1, h)

/-- `History.append`: reject oversized payloads; otherwise select the file,
delete the other file when the selected one already holds `histlen` or more
records, and append the record. -/
def historyAppend (data : List Nat) (h : HState) : Bool × HState :=
  if data.length > h.recordsize then (false, h)
  else
    let fid := (selectFile h).1
    let h1 := (selectFile h).2
    let h2 :=
      if hFileLen h1 fid ≥ h1.histlen then
        if fid = 0 then { h1 with file1 := [] } else { h1 with file0 := [] }
      else h1
    if fid = 0 then (true, { h2 with file0 := h2.file0 ++ [data] })
    else (true, { h2 with file1 := h2.file1 ++ [data] })

/-- `History.get_num_records`. -/
def historyNumRecords (h : HState) : Nat := h.file0.length + h.file1.length

/-- `History.get_records`: clamp the index, convert it to an offset from
the oldest record, read first from the longer file then from the shorter
one.  `none` models the uncaught exception raised when a computed read runs
past the end of a file (or opens a missing file): the source reads exactly
`subcount[i]` records without checking the file length. -/
def getRecords (h : HState) (index count : Nat) : Option (List (List Nat)) :=
  let maxR := historyNumRecords h
  if maxR = 0 then some []
  else
    let index := if index ≥ maxR then maxR - 1 else index
    let off := maxR - index - 1
    let big := if h.file0.length > h.file1.length then h.file0 else h.file1
    let small := if h.file0.length > h.file1.length then h.file1 else h.file0
    let sub0 := min (big.length - off) count
    let sub1 := count - sub0
    let seek0 := off
    let seek1 := off - big.length
    let read := fun (f : List (List Nat)) (seek cnt : Nat) =>
      if cnt = 0 then some []
      else if seek + cnt ≤ f.length then some ((f.drop seek).take cnt)
      else none
    match read big seek0 sub0, read small seek1 sub1 with
    | some r0, some r1 => some (r0 ++ r1)
    | _, _ => none

/-! ## Mesh engine (src/freakwan.py) -/

/-- The configuration keys of `FreakWAN.__init__` that the mesh logic
reads, with their defaults. -/
structure Cfg where
  checkCrc : Bool := true
  prom : Bool := false
  quiet : Bool := false
  relayNumTx : Nat := 3
  relayMaxDelay : Nat := 10000
  relayRssiLimit : Int := -60
  sendQueueMax : Nat := 100
  deriving Repr, DecidableEq

/-- The abstract radio (sx1276/sx1262 driver surface the engine uses).
`sent` records the frames handed to `lora.send`, in order. -/
structure Lora where
  txInProgress : Bool := false
  modemReceiving : Bool := false
  receiving : Bool := true
  sent : List (List Nat) := []
  deriving Repr, DecidableEq

/-- External nondeterminism, determinized for one execution: the AES-CBC
primitive of `cryptolib`, the IV randomness, and `urandom.randint`. -/
structure Env where
  aesEnc : List Nat → List Nat → List Nat → List Nat
  aesDec : List Nat → List Nat → List Nat → List Nat
  ivrand : List Nat
  randint : Nat → Nat → Nat

/-- The engine state of the `FreakWAN` object: send queue, two-generation
processed cache, neighbor table, keychain, journal, radio and duty-cycle
tracker.  `surfaced` records the Data messages reported to the user
(scroller / serial / BLE), in order. -/
structure FW where
  cfg : Cfg := {}
  sendQueue : List Msg := []
  processedA : List (Nat × Msg) := []
  processedB : List (Nat × Msg) := []
  neighbors : List (List Nat × Msg) := []
  keychain : Keychain := []
  history : HState := {}
  surfaced : List Msg := []
  lora : Lora := {}
  duty : DutyCycle := {}
  deriving Repr, DecidableEq

/-- Python-dict lookup on an insertion-ordered association list. -/
def alookup {α β : Type} [BEq α] (l : List (α × β)) (k : α) : Option β :=
  (l.find? (fun p => p.1 == k)).map Prod.snd

/-- Python-dict assignment: update in place if the key exists, else append. -/
def aset {α β : Type} [BEq α] (l : List (α × β)) (k : α) (v : β) :
    List (α × β) :=
  if (l.find? (fun p => p.1 == k)).isSome then
    l.map (fun p => if p.1 == k then (k, v) else p)
  else l ++ [(k, v)]

/-- `FreakWAN.get_processed_message`: check generation `a`, then `b`. -/
def getProcessedMessage (s : FW) (uid : Nat) : Option Msg :=
  match alookup s.processedA uid with
  | some m => some m
  | none => alookup s.processedB uid

/-- `FreakWAN.mark_as_processed`: for Data messages, report whether the uid
was already seen (always `false` in promiscuous mode) and insert new uids
into generation `a`; other types are never cached and report `false`. -/
def markAsProcessed (m : Msg) (s : FW) : Bool × FW :=
  if m.type = 0 then
    match getProcessedMessage s m.uid with
    | some _ => (if s.cfg.prom then false else true, s)
    | none => (false, { s with processedA := s.processedA ++ [(m.uid, m)] })
  else (false, s)

/-- Apply `f` to the cached message with the given uid, in whichever
generation holds it.  This mirrors the source's in-place mutation of the
cached `Message` object (which the dicts hold by reference). -/
def updateProcessed (uid : Nat) (f : Msg → Msg) (s : FW) : FW :=
  if (alookup s.processedA uid).isSome then
    { s with processedA :=
        s.processedA.map (fun p => if p.1 == uid then (uid, f p.2) else p) }
  else if (alookup s.processedB uid).isSome then
    { s with processedB :=
        s.processedB.map (fun p => if p.1 == uid then (uid, f p.2) else p) }
  else s

/-- `FreakWAN.send_asynchronously`: refuse when the queue is full;
otherwise stamp the message with a random send delay and the transmission
count, optionally set the PleaseRelay flag, append it to the send queue and
cache it via `mark_as_processed`.  Returns the success flag, the (mutated)
message object, and the new state. -/
def sendAsync (env : Env) (now : Int) (maxDelay numTx : Nat) (relay : Bool)
    (m : Msg) (s : FW) : Bool × Msg × FW :=
  if s.sendQueue.length ≥ s.cfg.sendQueueMax then (false, m, s)
  else
    let m := { m with
               sendTime := now + env.randint 0 maxDelay,
               numTx := numTx,
               flags := if relay then m.flags ||| 2 else m.flags }
    let s := { s with sendQueue := s.sendQueue ++ [m] }
    (true, m, (markAsProcessed m s).2)

/-- `FreakWAN.send_ack_if_needed`: emit an Ack for non-media, non-relayed
Data messages when not in quiet mode. -/
def sendAckIfNeeded (env : Env) (now : Int) (m : Msg) (s : FW) : FW :=
  if s.cfg.quiet then s
  else if m.type ≠ 0 then s
  else if m.flags &&& 8 ≠ 0 then s
  else if m.flags &&& 1 ≠ 0 then s
  else
    (sendAsync env now 0 1 false
      { type := 1, uid := m.uid, ackType := m.type, ctime := now,
        sendTime := now } s).2.2

/-- `FreakWAN.relay_if_needed`: relay Data messages whose originator asked
for relay, unless in quiet mode, received too strong, or out of ttl.  The
message object is mutated (ttl decrement, Relayed flag) before being
enqueued; the mutated object is returned alongside the new state. -/
def relayIfNeeded (env : Env) (now : Int) (m : Msg) (s : FW) : Msg × FW :=
  if s.cfg.quiet then (m, s)
  else if m.type ≠ 0 then (m, s)
  else if m.flags &&& 2 = 0 then (m, s)
  else if m.rssi > s.cfg.relayRssiLimit then (m, s)
  else if m.ttl ≤ 1 then (m, s)
  else
    let m := { m with ttl := m.ttl - 1, flags := m.flags ||| 1 }
    let r := sendAsync env now s.cfg.relayMaxDelay s.cfg.relayNumTx false m s
    (r.2.1, r.2.2)

/-- The neighbor-activity refresh inside the Data branch of
`receive_lora_packet`: a non-relayed Data message updates the stored Hello
message's `ctime` for its sender, if one is known. -/
def refreshNeighbor (now : Int) (m : Msg) (s : FW) : FW :=
  if m.flags &&& 1 = 0 then
    match alookup s.neighbors m.sender with
    | some nb =>
        { s with neighbors := aset s.neighbors m.sender { nb with ctime := now } }
    | none => s
  else s

/-- The journal step of the Data branch of `receive_lora_packet`: re-encode
the message and append it to the history DB when encoding succeeds. -/
def journalIfPossible (env : Env) (m : Msg) (s : FW) : FW :=
  match msgEncode env.aesEnc env.ivrand (some s.keychain) m with
  | some e => { s with history := (historyAppend e s.history).2 }
  | none => s

/-- The handling of a fresh (non-duplicate) Data message inside
`receive_lora_packet`: refresh the neighbor entry, surface the message,
ack it, journal it, relay it, with the processed-cache entry ending up as
the same mutated object the relay logic produced. -/
def dataBranch (env : Env) (now : Int) (m : Msg) (s : FW) : FW :=
  let s2 := refreshNeighbor now m s
  let s3 := { s2 with surfaced := s2.surfaced ++ [m] }
  let s4 := sendAckIfNeeded env now m s3
  let s5 := journalIfPossible env m s4
  let r5 := relayIfNeeded env now m s5
  updateProcessed m.uid (fun _ => r5.1) r5.2

/-- `FreakWAN.receive_lora_packet`: the radio receive callback.  Drops
bad-CRC frames (when `check_crc` is on) and undecodable frames; handles
no-key frames (dedup + relay only), Data (dedup, neighbor refresh, surface,
ack, journal, relay), Ack (record into the originator's ack-set, cancel
retransmissions once every neighbor acked) and Hello (neighbor upsert,
bounded to 32 entries).  After the Data path, the cached object is the same
mutated object the relay logic produced, which `updateProcessed` mirrors. -/
def receiveLoraPacket (env : Env) (now : Int) (packet : List Nat)
    (rssi : Int) (badCrc : Bool) (s : FW) : FW :=
  if s.cfg.checkCrc ∧ badCrc then s
  else
    match msgDecode env.aesDec (some s.keychain) packet with
    | none => s
    | some m0 =>
      let m := { m0 with
                 rssi := rssi,
                 flags := if badCrc then m0.flags ||| 256 else m0.flags,
                 ctime := now, sendTime := now }
      if m.noKey then
        let r := markAsProcessed m s
        if r.1 then r.2 else (relayIfNeeded env now m r.2).2
      else if m.type = 0 then
        let r := markAsProcessed m s
        if r.1 then r.2
        else dataBranch env now m r.2
      else if m.type = 1 then
        match getProcessedMessage s m.uid with
        | none => s
        | some about =>
          let about1 :=
            { about with acks :=
                if about.acks.contains m.sender then about.acks
                else about.acks ++ [m.sender] }
          let about2 :=
            if s.neighbors.length ≠ 0 ∧
               about1.acks.length = s.neighbors.length then
              { about1 with sendCanceled := true }
            else about1
          updateProcessed m.uid (fun _ => about2) s
      else if m.type = 2 then
        let s1 := { s with neighbors := aset s.neighbors m.sender m }
        if s1.neighbors.length > 32 then
          { s1 with neighbors := s1.neighbors.dropLast }
        else s1
      else s

/-- The drain loop of `FreakWAN.send_messages_in_queue`: process the popped
messages one by one; `later` accumulates `send_later`.  On the
tx-in-progress break, the unprocessed remainder is put back in front, with
the TX watchdog resetting the radio when the in-flight transmission
exceeds 60 s. -/
def smiqGo (env : Env) (nowMs : Int) :
    List Msg → List Msg → FW → FW
  | [], later, s => { s with sendQueue := later }
  | m :: rest, later, s =>
    if nowMs - m.sendTime > 0 then
      if s.lora.txInProgress then
        let s1 :=
          if dutyGetCurrentTxTime nowMs s.duty > 60000 then
            { s with lora :=
                { s.lora with txInProgress := false, receiving := true } }
          else s
        { s1 with sendQueue := m :: (rest ++ later) }
      else
        let step :=
          if m.sendCanceled = false then
            match msgEncode env.aesEnc env.ivrand (some s.keychain) m with
            | some e =>
                (m, { s with
                      duty := dutyStartTx nowMs s.duty,
                      lora := { s.lora with
                                txInProgress := true,
                                sent := s.lora.sent ++ [e] } })
            | none => ({ m with sendCanceled := true }, s)
          else (m, s)
        if step.1.numTx > 1 ∧ step.1.sendCanceled = false ∧
           step.2.cfg.quiet = false then
          let m2 := { step.1 with
                      numTx := step.1.numTx - 1,
                      sendTime := nowMs + env.randint 3000 8000 }
          smiqGo env nowMs rest (later ++ [m2]) step.2
        else smiqGo env nowMs rest later step.2
    else smiqGo env nowMs rest (later ++ [m]) s

/-- `FreakWAN.send_messages_in_queue`: listen-before-talk, then drain. -/
def sendMessagesInQueue (env : Env) (nowMs : Int) (s : FW) : FW :=
  if s.lora.modemReceiving then s
  else smiqGo env nowMs s.sendQueue [] { s with sendQueue := [] }

/-! ## Theorems -/

/-- A fixed environment for concrete witnesses: identity cipher, zero IV
entropy, and a PRNG that returns the lower bound. -/
def env0 : Env :=
  { aesEnc := fun _ _ d => d, aesDec := fun _ _ d => d,
    ivrand := [0, 0, 0, 0], randint := fun lo _ => lo }

/-- `mark_as_processed` never touches the send queue. -/
theorem markAsProcessed_sendQueue (m : Msg) (s : FW) :
    (markAsProcessed m s).2.sendQueue = s.sendQueue := by
  simp only [markAsProcessed]
  split
  · split <;> rfl
  · rfl

/-- C9: `send_asynchronously` refuses (returning `False` and leaving the
whole engine state — in particular the send queue and both processed-cache
generations — unchanged) when the queue already holds `send_queue_max`
(100 by default) or more entries; otherwise it stamps the message, appends
it to the queue and returns `True`. -/
theorem sendAsync_queue_full_or_append (env : Env) (now : Int)
    (maxDelay numTx : Nat) (relay : Bool) (m : Msg) (s : FW) :
    (s.sendQueue.length ≥ s.cfg.sendQueueMax →
      sendAsync env now maxDelay numTx relay m s = (false, m, s)) ∧
    (s.sendQueue.length < s.cfg.sendQueueMax →
      (sendAsync env now maxDelay numTx relay m s).1 = true ∧
      (sendAsync env now maxDelay numTx relay m s).2.2.sendQueue =
        s.sendQueue ++ [(sendAsync env now maxDelay numTx relay m s).2.1]) := by
  constructor
  · intro h
    simp [sendAsync, h]
  · intro h
    have h' : ¬ s.sendQueue.length ≥ s.cfg.sendQueueMax := by omega
    refine ⟨by simp [sendAsync, h'], ?_⟩
    simp only [sendAsync, if_neg h']
    simp [markAsProcessed]
    split <;> simp_all [getProcessedMessage]
    split <;> simp_all

/-- C9 witness: a full queue (100 dummy entries, the default cap) refuses
the append and leaves the state untouched; an empty queue accepts. -/
theorem sendAsync_queue_witness :
    (sendAsync env0 0 0 1 false {}
        { sendQueue := List.replicate 100 {} } =
      (false, {}, { sendQueue := List.replicate 100 ({} : Msg) })) ∧
    (sendAsync env0 0 0 1 false {} {}).1 = true := by
  constructor
  · exact (sendAsync_queue_full_or_append env0 0 0 1 false {}
      { sendQueue := List.replicate 100 {} }).1 (by simp)
  · exact ((sendAsync_queue_full_or_append env0 0 0 1 false {} {}).2
      (by simp)).1

/-- C7: `relay_if_needed` leaves the send queue unchanged unless the
message is a Data message with PleaseRelay set, quiet mode is off, the
rssi is at most the relay limit and the ttl exceeds 1 — in particular no
Ack or Hello is ever enqueued; and whenever it does enqueue, the enqueued
copy has the ttl decremented, the Relayed flag set, `num_tx` equal to
`relay_num_tx`, the same uid, and a send delay of at most
`relay_max_delay` ms. -/
theorem relayIfNeeded_gating (env : Env) (now : Int) (m : Msg) (s : FW)
    (hr : env.randint 0 s.cfg.relayMaxDelay ≤ s.cfg.relayMaxDelay) :
    ((s.cfg.quiet = true ∨ m.type ≠ 0 ∨ m.flags &&& 2 = 0 ∨
        m.rssi > s.cfg.relayRssiLimit ∨ m.ttl ≤ 1) →
      (relayIfNeeded env now m s).2.sendQueue = s.sendQueue) ∧
    ((relayIfNeeded env now m s).2.sendQueue ≠ s.sendQueue →
      s.cfg.quiet = false ∧ m.type = 0 ∧ m.flags &&& 2 ≠ 0 ∧
      m.rssi ≤ s.cfg.relayRssiLimit ∧ 1 < m.ttl ∧
      ∃ m' : Msg,
        (relayIfNeeded env now m s).2.sendQueue = s.sendQueue ++ [m'] ∧
        m'.uid = m.uid ∧ m'.ttl = m.ttl - 1 ∧
        m'.flags = (m.flags ||| 1) ∧ m'.numTx = s.cfg.relayNumTx ∧
        m'.sendTime ≤ now + (s.cfg.relayMaxDelay : Int)) := by
  simp only [relayIfNeeded]
  constructor
  · intro hc
    split_ifs with h1 h2 h3 h4 h5
    · rfl
    · rfl
    · rfl
    · rfl
    · rfl
    · rcases hc with h | h | h | h | h
      · exact absurd h h1
      · exact absurd h h2
      · exact absurd h h3
      · exact absurd h h4
      · exact absurd h h5
  · intro hne
    split_ifs at hne ⊢ with h1 h2 h3 h4 h5
    · exact absurd rfl hne
    · exact absurd rfl hne
    · exact absurd rfl hne
    · exact absurd rfl hne
    · exact absurd rfl hne
    · simp only [sendAsync] at hne ⊢
      by_cases hfull : s.sendQueue.length ≥ s.cfg.sendQueueMax
      · rw [if_pos hfull] at hne
        exact absurd rfl hne
      · rw [if_neg hfull]
        have hcast : (env.randint 0 s.cfg.relayMaxDelay : Int) ≤ (s.cfg.relayMaxDelay : Int) := by exact_mod_cast hr
        refine ⟨by simpa using h1, by simpa using h2, h3, by omega, by omega,
          ⟨{ m with
             ttl := m.ttl - 1, flags := m.flags ||| 1,
             sendTime := now + (env.randint 0 s.cfg.relayMaxDelay : Int),
             numTx := s.cfg.relayNumTx }, ?_, rfl, rfl, rfl, rfl, ?_⟩⟩
        · rw [markAsProcessed_sendQueue]
          simp
        · simp only []
          omega

/-- C7 witness: an Ack message is never enqueued for relay (concrete
instance of the gating theorem with its randomness hypothesis discharged). -/
theorem relayIfNeeded_gating_witness :
    (relayIfNeeded env0 0 { type := 1, uid := 9 } {}).2.sendQueue =
      ({} : FW).sendQueue :=
  (relayIfNeeded_gating env0 0 { type := 1, uid := 9 } {} (by decide)).1
    (Or.inr (Or.inl (by decide)))

/-- Two engine states that agree everywhere except (possibly) in the
duty-cycle ring slots. -/
def SlotsAgree (s t : FW) : Prop :=
  s.cfg = t.cfg ∧ s.sendQueue = t.sendQueue ∧ s.processedA = t.processedA ∧
  s.processedB = t.processedB ∧ s.neighbors = t.neighbors ∧
  s.keychain = t.keychain ∧ s.history = t.history ∧ s.surfaced = t.surfaced ∧
  s.lora = t.lora ∧ s.duty.slotsDur = t.duty.slotsDur ∧
  s.duty.txStartTime = t.duty.txStartTime

/-- The drain loop never reads nor writes the duty-cycle ring slots: from
two states agreeing on everything else, it produces two states agreeing on
everything else — in particular the same `lora.sent` transcript. -/
theorem smiqGo_slots_bisim (env : Env) (nowMs : Int) :
    ∀ (pending later : List Msg) (s t : FW), SlotsAgree s t →
      SlotsAgree (smiqGo env nowMs pending later s)
        (smiqGo env nowMs pending later t) := by
  intro pending
  induction pending with
  | nil =>
    intro later s t h
    obtain ⟨h1, h2, h3, h4, h5, h6, h7, h8, h9, h10, h11⟩ := h
    exact ⟨h1, rfl, h3, h4, h5, h6, h7, h8, h9, h10, h11⟩
  | cons m rest ih =>
    intro later s t h
    obtain ⟨scfg, ssq, spa, spb, snb, skc, shh, ssf, slora, sduty⟩ := s
    obtain ⟨tcfg, tsq, tpa, tpb, tnb, tkc, thh, tsf, tlora, tduty⟩ := t
    obtain ⟨sdur, sslots, stx⟩ := sduty
    obtain ⟨tdur, tslots, ttx⟩ := tduty
    simp only [SlotsAgree] at h
    obtain ⟨h1, h2, h3, h4, h5, h6, h7, h8, h9, h10, h11⟩ := h
    subst h1 h2 h3 h4 h5 h6 h7 h8 h9 h10 h11
    cases henc : msgEncode env.aesEnc env.ivrand (some skc) m with
    | none =>
      simp only [smiqGo, dutyGetCurrentTxTime, dutyStartTx, henc]
      split_ifs <;> (try dsimp only) <;>
        first
          | exact ⟨rfl, rfl, rfl, rfl, rfl, rfl, rfl, rfl, rfl, rfl, rfl⟩
          | (apply ih; exact ⟨rfl, rfl, rfl, rfl, rfl, rfl, rfl, rfl, rfl, rfl, rfl⟩)
    | some e =>
      simp only [smiqGo, dutyGetCurrentTxTime, dutyStartTx, henc]
      split_ifs <;> (try dsimp only) <;>
        first
          | exact ⟨rfl, rfl, rfl, rfl, rfl, rfl, rfl, rfl, rfl, rfl, rfl⟩
          | (apply ih; exact ⟨rfl, rfl, rfl, rfl, rfl, rfl, rfl, rfl, rfl, rfl, rfl⟩)

/-- C1 (amended): `send_messages_in_queue` never consults the duty-cycle
percentage: the frames it hands to `lora.send` are identical for any two
states differing only in the duty-cycle ring slots, so no duty-cycle cap is
enforced by the drain routine (its only gates are listen-before-talk and a
busy radio). -/
theorem sendMessagesInQueue_ignores_duty_cycle (env : Env) (nowMs : Int)
    (s : FW) (X : List DSlot) :
    (sendMessagesInQueue env nowMs
        { s with duty := { s.duty with slots := X } }).lora.sent =
      (sendMessagesInQueue env nowMs s).lora.sent := by
  simp only [sendMessagesInQueue]
  split_ifs with h
  · rfl
  · have hb := smiqGo_slots_bisim env nowMs s.sendQueue []
      { s with duty := { s.duty with slots := X }, sendQueue := [] }
      { s with sendQueue := [] }
      ⟨rfl, rfl, rfl, rfl, rfl, rfl, rfl, rfl, rfl, rfl, rfl⟩
    exact congrArg Lora.sent hb.2.2.2.2.2.2.2.2.1

/-- A concrete engine state whose duty-cycle tracker reports 50%: one slot
holds 150 s of transmit time inside a 300 s slot of the current window. -/
def c1State : FW :=
  { sendQueue := [{ type := 0, uid := 7, sendTime := -1, nick := [97] }],
    duty := { slotsDur := 300,
              slots := [⟨150000, 10⟩, ⟨0, -1⟩, ⟨0, -1⟩, ⟨0, -1⟩, ⟨0, -1⟩],
              txStartTime := -1 } }

/-- C1 counterexample: in `c1State` the tracker reports a 50% duty cycle —
at or above any configured cap such as the 10% of the specification — and
yet `send_messages_in_queue` hands the queued frame to the radio. -/
theorem sendMessagesInQueue_sends_despite_duty_cycle :
    dutyGetDutyCycle 3000 c1State.duty = 50 ∧ (10 : ℚ) ≤ 50 ∧
      (sendMessagesInQueue env0 0 c1State).lora.sent ≠ [] := by
  refine ⟨?_, by norm_num, by decide⟩
  norm_num [dutyGetDutyCycle, dutyGetEpoch, c1State]

/-- `mark_as_processed` only ever touches the processed cache. -/
theorem markAsProcessed_surfaced (m : Msg) (s : FW) :
    (markAsProcessed m s).2.surfaced = s.surfaced := by
  simp only [markAsProcessed]
  split
  · split <;> rfl
  · rfl

/-- `mark_as_processed` never touches the configuration. -/
theorem markAsProcessed_cfg (m : Msg) (s : FW) :
    (markAsProcessed m s).2.cfg = s.cfg := by
  simp only [markAsProcessed]
  split
  · split <;> rfl
  · rfl

/-- `send_asynchronously` never touches the surfaced list. -/
theorem sendAsync_surfaced (env : Env) (now : Int) (maxDelay numTx : Nat)
    (relay : Bool) (m : Msg) (s : FW) :
    (sendAsync env now maxDelay numTx relay m s).2.2.surfaced = s.surfaced := by
  simp only [sendAsync]
  split
  · rfl
  · rw [markAsProcessed_surfaced]

/-- `send_asynchronously` extends the send queue by at most one entry. -/
theorem sendAsync_queue_extend (env : Env) (now : Int) (maxDelay numTx : Nat)
    (relay : Bool) (m : Msg) (s : FW) :
    ∃ t : List Msg,
      (sendAsync env now maxDelay numTx relay m s).2.2.sendQueue =
        s.sendQueue ++ t ∧ t.length ≤ 1 := by
  simp only [sendAsync]
  split
  · exact ⟨[], by simp⟩
  · refine ⟨[{ m with
               sendTime := now + (env.randint 0 maxDelay : Int),
               numTx := numTx,
               flags := if relay = true then m.flags ||| 2 else m.flags }],
      ?_, by simp⟩
    rw [markAsProcessed_sendQueue]

/-- `send_ack_if_needed` never touches the surfaced list. -/
theorem sendAckIfNeeded_surfaced (env : Env) (now : Int) (m : Msg) (s : FW) :
    (sendAckIfNeeded env now m s).surfaced = s.surfaced := by
  simp only [sendAckIfNeeded]
  split_ifs <;> first | rfl | rw [sendAsync_surfaced]

/-- `send_ack_if_needed` never touches the configuration. -/
theorem sendAckIfNeeded_cfg (env : Env) (now : Int) (m : Msg) (s : FW) :
    (sendAckIfNeeded env now m s).cfg = s.cfg := by
  simp only [sendAckIfNeeded]
  split_ifs with a b c d
  · rfl
  · rfl
  · rfl
  · rfl
  · simp only [sendAsync]
    split
    · rfl
    · rw [markAsProcessed_cfg]

/-- `send_ack_if_needed` extends the send queue by at most one entry. -/
theorem sendAckIfNeeded_queue_extend (env : Env) (now : Int) (m : Msg)
    (s : FW) :
    ∃ t : List Msg,
      (sendAckIfNeeded env now m s).sendQueue = s.sendQueue ++ t ∧
        t.length ≤ 1 := by
  simp only [sendAckIfNeeded]
  split_ifs with a b c d
  · exact ⟨[], by simp⟩
  · exact ⟨[], by simp⟩
  · exact ⟨[], by simp⟩
  · exact ⟨[], by simp⟩
  · exact sendAsync_queue_extend _ _ _ _ _ _ _

/-- `relay_if_needed` never touches the surfaced list. -/
theorem relayIfNeeded_surfaced (env : Env) (now : Int) (m : Msg) (s : FW) :
    (relayIfNeeded env now m s).2.surfaced = s.surfaced := by
  simp only [relayIfNeeded]
  split_ifs <;> first | rfl | rw [sendAsync_surfaced]

/-- `update_processed` (in-place mutation of a cached message) never
touches the surfaced list or the send queue. -/
theorem updateProcessed_surfaced (uid : Nat) (f : Msg → Msg) (s : FW) :
    (updateProcessed uid f s).surfaced = s.surfaced := by
  simp only [updateProcessed]
  split_ifs <;> rfl

/-- `update_processed` never touches the send queue. -/
theorem updateProcessed_sendQueue (uid : Nat) (f : Msg → Msg) (s : FW) :
    (updateProcessed uid f s).sendQueue = s.sendQueue := by
  simp only [updateProcessed]
  split_ifs <;> rfl

/-- When all relay conditions hold and the queue has room,
`relay_if_needed` appends exactly the mutated relay copy. -/
theorem relayIfNeeded_enqueues (env : Env) (now : Int) (m : Msg) (s : FW)
    (hq : s.cfg.quiet = false) (ht : m.type = 0) (hp : m.flags &&& 2 ≠ 0)
    (hrssi : m.rssi ≤ s.cfg.relayRssiLimit) (httl : 1 < m.ttl)
    (hroom : s.sendQueue.length < s.cfg.sendQueueMax) :
    (relayIfNeeded env now m s).2.sendQueue =
      s.sendQueue ++
        [{ m with
           ttl := m.ttl - 1, flags := m.flags ||| 1,
           sendTime := now + (env.randint 0 s.cfg.relayMaxDelay : Int),
           numTx := s.cfg.relayNumTx }] := by
  simp only [relayIfNeeded]
  split_ifs with h1 h2 h3 h4
  · exact absurd h1 (by simp [hq])
  · exact absurd h2 (by simp [ht])
  · exact absurd h3 (by omega)
  · exact absurd h4 (by omega)
  · simp only [sendAsync]
    rw [if_neg (by omega)]
    rw [markAsProcessed_sendQueue]
    simp

/-- `refreshNeighbor` only ever touches the neighbor table. -/
theorem refreshNeighbor_sendQueue (now : Int) (m : Msg) (s : FW) :
    (refreshNeighbor now m s).sendQueue = s.sendQueue := by
  simp only [refreshNeighbor]
  split_ifs
  · split <;> rfl
  · rfl

/-- `refreshNeighbor` never touches the surfaced list. -/
theorem refreshNeighbor_surfaced (now : Int) (m : Msg) (s : FW) :
    (refreshNeighbor now m s).surfaced = s.surfaced := by
  simp only [refreshNeighbor]
  split_ifs
  · split <;> rfl
  · rfl

/-- `refreshNeighbor` never touches the configuration. -/
theorem refreshNeighbor_cfg (now : Int) (m : Msg) (s : FW) :
    (refreshNeighbor now m s).cfg = s.cfg := by
  simp only [refreshNeighbor]
  split_ifs
  · split <;> rfl
  · rfl

/-- The journal step only ever touches the history. -/
theorem journalIfPossible_sendQueue (env : Env) (m : Msg) (s : FW) :
    (journalIfPossible env m s).sendQueue = s.sendQueue := by
  simp only [journalIfPossible]
  split <;> rfl

/-- The journal step never touches the surfaced list. -/
theorem journalIfPossible_surfaced (env : Env) (m : Msg) (s : FW) :
    (journalIfPossible env m s).surfaced = s.surfaced := by
  simp only [journalIfPossible]
  split <;> rfl

/-- The journal step never touches the configuration. -/
theorem journalIfPossible_cfg (env : Env) (m : Msg) (s : FW) :
    (journalIfPossible env m s).cfg = s.cfg := by
  simp only [journalIfPossible]
  split <;> rfl

/-- `sendAsync` never touches the configuration. -/
theorem sendAsync_cfg (env : Env) (now : Int) (maxDelay numTx : Nat)
    (relay : Bool) (m : Msg) (s : FW) :
    (sendAsync env now maxDelay numTx relay m s).2.2.cfg = s.cfg := by
  simp only [sendAsync]
  split
  · rfl
  · rw [markAsProcessed_cfg]

/-- The Data-branch handler surfaces exactly one message and, when the
relay conditions hold and the queue has room (one slot may be taken by the
Ack it emits first), enqueues the relay copy of `m`. -/
theorem dataBranch_spec (env : Env) (now : Int) (m : Msg) (s : FW)
    (hquiet : s.cfg.quiet = false) (hty : m.type = 0)
    (hpr : m.flags &&& 2 ≠ 0) (hrssi : m.rssi ≤ s.cfg.relayRssiLimit)
    (httl : 1 < m.ttl)
    (hroom : s.sendQueue.length + 1 < s.cfg.sendQueueMax) :
    (dataBranch env now m s).surfaced.length = s.surfaced.length + 1 ∧
    ∃ mr ∈ (dataBranch env now m s).sendQueue,
      mr.uid = m.uid ∧ mr.ttl = m.ttl - 1 ∧ mr.flags = m.flags ||| 1 ∧
      mr.numTx = s.cfg.relayNumTx := by
  simp only [dataBranch]
  set s2 := refreshNeighbor now m s with hs2
  set s3 : FW := { s2 with surfaced := s2.surfaced ++ [m] } with hs3
  set s4 := sendAckIfNeeded env now m s3 with hs4
  set s5 := journalIfPossible env m s4 with hs5
  have hcfg3 : s3.cfg = s.cfg := by
    rw [hs3]
    show s2.cfg = s.cfg
    rw [hs2, refreshNeighbor_cfg]
  have hcfg5 : s5.cfg = s.cfg := by
    rw [hs5, journalIfPossible_cfg, hs4, sendAckIfNeeded_cfg, hcfg3]
  obtain ⟨t, hqt, hlt⟩ := sendAckIfNeeded_queue_extend env now m s3
  have hq3 : s3.sendQueue = s.sendQueue := by
    rw [hs3]
    show s2.sendQueue = s.sendQueue
    rw [hs2, refreshNeighbor_sendQueue]
  have hq5 : s5.sendQueue = s.sendQueue ++ t := by
    rw [hs5, journalIfPossible_sendQueue, hs4, hqt, hq3]
  have hrelay := relayIfNeeded_enqueues env now m s5
    (by rw [hcfg5]; exact hquiet) hty hpr (by rw [hcfg5]; exact hrssi) httl
    (by rw [hq5, hcfg5]; simp only [List.length_append]; omega)
  constructor
  · rw [updateProcessed_surfaced, relayIfNeeded_surfaced, hs5,
      journalIfPossible_surfaced, hs4, sendAckIfNeeded_surfaced, hs3]
    show (s2.surfaced ++ [m]).length = s.surfaced.length + 1
    rw [hs2, refreshNeighbor_surfaced]
    simp
  · rw [updateProcessed_sendQueue, hrelay, hq5]
    refine ⟨{ m with
              ttl := m.ttl - 1, flags := m.flags ||| 1,
              sendTime := now + (env.randint 0 s5.cfg.relayMaxDelay : Int),
              numTx := s5.cfg.relayNumTx }, by simp, rfl, rfl, rfl, ?_⟩
    show s5.cfg.relayNumTx = s.cfg.relayNumTx
    rw [hcfg5]

/-- C6 (amended): in promiscuous mode a Data frame whose uid is already in
the processed cache is surfaced to the user and handed to the normal relay
logic: whenever the relay conditions (PleaseRelay set, quiet off, weak
enough rssi, ttl above 1) hold and the queue has room, a relay copy with
decremented ttl and the Relayed flag is enqueued. -/
theorem receive_prom_duplicate_surfaced_and_relayed (env : Env) (now : Int)
    (packet : List Nat) (rssi : Int) (s : FW) (m0 : Msg)
    (hdec : msgDecode env.aesDec (some s.keychain) packet = some m0)
    (hprom : s.cfg.prom = true) (hquiet : s.cfg.quiet = false)
    (hnk : m0.noKey = false) (hty : m0.type = 0)
    (hdup : (getProcessedMessage s m0.uid).isSome = true)
    (hpr : m0.flags &&& 2 ≠ 0) (hrssi : rssi ≤ s.cfg.relayRssiLimit)
    (httl : 1 < m0.ttl)
    (hroom : s.sendQueue.length + 1 < s.cfg.sendQueueMax) :
    (receiveLoraPacket env now packet rssi false s).surfaced.length =
      s.surfaced.length + 1 ∧
    ∃ mr ∈ (receiveLoraPacket env now packet rssi false s).sendQueue,
      mr.uid = m0.uid ∧ mr.ttl = m0.ttl - 1 ∧ mr.flags = m0.flags ||| 1 ∧
      mr.numTx = s.cfg.relayNumTx := by
  obtain ⟨mold, hmold⟩ := Option.isSome_iff_exists.mp hdup
  have hrecv : receiveLoraPacket env now packet rssi false s =
      dataBranch env now
        { m0 with rssi := rssi, ctime := now, sendTime := now } s := by
    simp only [receiveLoraPacket, hdec, markAsProcessed, hnk, hty, hmold,
      hprom, Bool.false_eq_true, and_false, if_false, if_true, ite_false,
      ite_true]
  rw [hrecv]
  exact dataBranch_spec env now
    { m0 with rssi := rssi, ctime := now, sendTime := now } s hquiet
    (by simpa using hty) (by simpa using hpr) (by simpa using hrssi)
    (by simpa using httl) hroom

/-- A concrete Data frame: type 0, PleaseRelay flag, uid 5, ttl 2, sender
`01:01:01:01:01:01`, nick `"a"`, text `"b"`. -/
def c6Packet : List Nat := [0, 2, 5, 0, 0, 0, 2, 1, 1, 1, 1, 1, 1, 1, 97, 98]

/-- The message `c6Packet` decodes to. -/
def c6Msg : Msg :=
  { type := 0, flags := 2, uid := 5, ttl := 2, sender := [1, 1, 1, 1, 1, 1],
    nick := [97], text := [98] }

/-- A promiscuous-mode engine state whose processed cache already holds
uid 5. -/
def c6State : FW :=
  { cfg := { prom := true }, processedA := [(5, { uid := 5 })] }

/-- C6 counterexample: in promiscuous mode, receiving `c6Packet` — whose
uid 5 is already in the processed cache — surfaces the frame AND enqueues a
relay copy (uid 5, ttl 1, Relayed flag set, `num_tx = 3`), contradicting
"surfaced but never enqueued for relay". -/
theorem receive_prom_duplicate_relay_counterexample :
    (receiveLoraPacket env0 1000 c6Packet (-90) false c6State).surfaced.length
      = 1 ∧
    ((receiveLoraPacket env0 1000 c6Packet (-90) false c6State).sendQueue.any
      (fun r => r.uid == 5 && r.ttl == 1 && r.numTx == 3 &&
        decide (r.flags &&& 1 = 1))) = true := by
  decide

/-- C6 witness: the amended theorem applied to the concrete promiscuous
duplicate scenario. -/
theorem receive_prom_duplicate_witness :
    (receiveLoraPacket env0 1000 c6Packet (-90) false c6State).surfaced.length
      = c6State.surfaced.length + 1 ∧
    ∃ mr ∈ (receiveLoraPacket env0 1000 c6Packet (-90) false
        c6State).sendQueue,
      mr.uid = c6Msg.uid ∧ mr.ttl = c6Msg.ttl - 1 ∧
      mr.flags = c6Msg.flags ||| 1 ∧ mr.numTx = c6State.cfg.relayNumTx :=
  receive_prom_duplicate_surfaced_and_relayed env0 1000 c6Packet (-90)
    c6State c6Msg (by decide) (by decide) (by decide) (by decide) (by decide)
    (by decide) (by decide) (by decide) (by decide) (by decide)

/-- Dict-style in-place update of an association list commutes with
lookup. -/
theorem alookup_map_update {β : Type} (l : List (Nat × β)) (k : Nat)
    (f : β → β) :
    alookup (l.map fun p => if p.1 = k then (k, f p.2) else p) k =
      (alookup l k).map f := by
  induction l with
  | nil => rfl
  | cons p l ih =>
    by_cases h : p.1 = k
    · simp only [alookup, List.map_cons, if_pos h]
      rw [List.find?_cons_of_pos _ (by simp),
        List.find?_cons_of_pos _ (by simp [h])]
      rfl
    · simp only [alookup, List.map_cons, if_neg h]
      rw [List.find?_cons_of_neg _ (by simp [h]),
        List.find?_cons_of_neg _ (by simp [h])]
      exact ih

/-- After an in-place update of a cached message, looking it up returns the
updated message (whichever generation held it). -/
theorem getProcessedMessage_updateProcessed (uid : Nat) (f : Msg → Msg)
    (s : FW) (h : (getProcessedMessage s uid).isSome = true) :
    getProcessedMessage (updateProcessed uid f s) uid =
      (getProcessedMessage s uid).map f := by
  cases hA : alookup s.processedA uid with
  | some v =>
    simp [updateProcessed, getProcessedMessage, hA]
    rw [alookup_map_update, hA]
    rfl
  | none =>
    cases hB : alookup s.processedB uid with
    | some w =>
      simp [updateProcessed, getProcessedMessage, hA, hB]
      rw [alookup_map_update, hB]
      rfl
    | none =>
      exfalso
      simp [getProcessedMessage, hA, hB] at h

/-- C8: on receiving an Ack whose uid matches a cached message, the acking
sender is always recorded in that message's ack-set (deduplicated), and the
cached message's `send_canceled` flag is set exactly when the neighbor
table is non-empty and the resulting ack-set size equals the neighbor-table
size — otherwise it keeps its previous value, so no premature cancellation
happens on earlier Acks. -/
theorem receive_ack_records_and_cancels (env : Env) (now : Int)
    (packet : List Nat) (rssi : Int) (s : FW) (m0 about : Msg)
    (hdec : msgDecode env.aesDec (some s.keychain) packet = some m0)
    (hnk : m0.noKey = false) (hty : m0.type = 1)
    (habout : getProcessedMessage s m0.uid = some about) :
    getProcessedMessage (receiveLoraPacket env now packet rssi false s)
        m0.uid =
      some { about with
             acks := if about.acks.contains m0.sender then about.acks
                     else about.acks ++ [m0.sender],
             sendCanceled :=
               if s.neighbors.length ≠ 0 ∧
                  (if about.acks.contains m0.sender then about.acks
                   else about.acks ++ [m0.sender]).length =
                    s.neighbors.length
               then true else about.sendCanceled } := by
  have hrecv : receiveLoraPacket env now packet rssi false s =
      updateProcessed m0.uid
        (fun _ =>
          if s.neighbors.length ≠ 0 ∧
             (if about.acks.contains m0.sender then about.acks
              else about.acks ++ [m0.sender]).length = s.neighbors.length
          then { about with
                 acks := if about.acks.contains m0.sender then about.acks
                         else about.acks ++ [m0.sender],
                 sendCanceled := true }
          else { about with
                 acks := if about.acks.contains m0.sender then about.acks
                         else about.acks ++ [m0.sender] }) s := by
    simp only [receiveLoraPacket, hdec, hnk, hty, habout,
      Bool.false_eq_true, and_false, if_false, ite_false, ite_true]
    rw [if_neg (show ¬((1 : Nat) = 0) by decide)]
  rw [hrecv, getProcessedMessage_updateProcessed _ _ _ (by rw [habout]; rfl),
    habout]
  by_cases hc : s.neighbors.length ≠ 0 ∧
      (if about.acks.contains m0.sender then about.acks
       else about.acks ++ [m0.sender]).length = s.neighbors.length
  · rw [if_pos hc, if_pos hc]
    rfl
  · rw [if_neg hc, if_neg hc]
    rfl

/-- A concrete Ack frame: type 1, flags 0, uid 5, ack_type 0, sender
`02:02:02:02:02:02`. -/
def c8Packet : List Nat := [1, 0, 5, 0, 0, 0, 0, 2, 2, 2, 2, 2, 2]

/-- The message `c8Packet` decodes to. -/
def c8Msg : Msg := { type := 1, uid := 5, sender := [2, 2, 2, 2, 2, 2] }

/-- The cached Data message the Ack refers to. -/
def c8About : Msg := { uid := 5 }

/-- An engine state holding `c8About` in the processed cache and two known
neighbors, one of which is the Ack's sender. -/
def c8State : FW :=
  { processedA := [(5, c8About)],
    neighbors := [([2, 2, 2, 2, 2, 2], { type := 2 }),
                  ([3, 3, 3, 3, 3, 3], { type := 2 })] }

/-- C8 witness: receiving `c8Packet` in `c8State` records the acking
sender; the ack-set covers only one of the two known neighbors, so
`send_canceled` keeps its previous value (false) — no premature
cancellation. -/
theorem receive_ack_records_and_cancels_witness :
    getProcessedMessage
        (receiveLoraPacket env0 0 c8Packet (-50) false c8State) c8Msg.uid =
      some { c8About with
             acks := if c8About.acks.contains c8Msg.sender then c8About.acks
                     else c8About.acks ++ [c8Msg.sender],
             sendCanceled :=
               if c8State.neighbors.length ≠ 0 ∧
                  (if c8About.acks.contains c8Msg.sender then c8About.acks
                   else c8About.acks ++ [c8Msg.sender]).length =
                    c8State.neighbors.length
               then true else c8About.sendCanceled } :=
  receive_ack_records_and_cancels env0 0 c8Packet (-50) c8State c8Msg
    c8About (by decide) rfl rfl (by decide)

/-- The raw secret `"key"` used for the key-derivation counterexample. -/
def c3raw : List Nat := [107, 101, 121]

/-- The subkey pair the specification claims the keychain uses: both
subkeys derived by HMAC-SHA256 directly from the raw stored secret. -/
def claimedDeriveKeys (raw : List Nat) : List Nat × List Nat :=
  ((HMAC_SHA256 raw aesLabel).take 16, HMAC_SHA256 raw macLabel)

set_option maxRecDepth 40000 in
/-- C3 counterexample: for the stored secret `"key"`, the subkeys the code
derives (from `sha16` of the secret, the value `load_keys` stores) differ
from the subkeys claimed (derived directly from the raw secret). -/
theorem deriveKeys_not_from_raw_secret :
    ¬((kcDeriveKeys (kcStoredKey c3raw)).1 = (claimedDeriveKeys c3raw).1 ∧
      (kcDeriveKeys (kcStoredKey c3raw)).2 = (claimedDeriveKeys c3raw).2) := by
  decide

/-- C3 (amended): the value stored for a raw secret K is
`sha16(K) = first 16 bytes of SHA-256(K)`, and the AES/MAC subkeys used by
encryption and decryption are `first 16 bytes of
HMAC-SHA256(sha16(K), "AES…")` and `HMAC-SHA256(sha16(K), "MAC…")`. -/
theorem deriveKeys_from_sha16_of_secret (raw : List Nat) :
    kcStoredKey raw = (sha256 raw).take 16 ∧
    kcDeriveKeys (kcStoredKey raw) =
      ((HMAC_SHA256 ((sha256 raw).take 16) aesLabel).take 16,
       HMAC_SHA256 ((sha256 raw).take 16) macLabel) :=
  ⟨rfl, rfl⟩

/-- C10: `Message.decode` is a total function into `Option` (every
exception in the source is caught and returned as `False`, modelled
`none`), and malformed frames are rejected: frames too short for their
type's integer fields, an unknown type byte, and non-UTF-8 nick or text
all yield `none`. -/
theorem msgDecode_rejects_malformed
    (aesDec : List Nat → List Nat → List Nat → List Nat)
    (kc : Option Keychain) (bs : List Nat) :
    (bs.length < 2 → msgDecode aesDec kc bs = none) ∧
    (bs.getD 0 0 ≠ 0 → bs.getD 0 0 ≠ 1 → bs.getD 0 0 ≠ 2 →
      msgDecode aesDec kc bs = none) ∧
    (bs.getD 0 0 = 0 → bs.getD 1 0 &&& 16 = 0 → bs.length < 14 →
      msgDecode aesDec kc bs = none) ∧
    (bs.getD 0 0 = 1 → bs.length < 13 → msgDecode aesDec kc bs = none) ∧
    (bs.getD 0 0 = 2 → bs.length < 10 → msgDecode aesDec kc bs = none) ∧
    (bs.getD 0 0 = 0 → bs.getD 1 0 &&& 16 = 0 → 14 ≤ bs.length →
      utf8Check ((bs.drop 14).take (bs.getD 13 0)) = false →
      msgDecode aesDec kc bs = none) ∧
    (bs.getD 0 0 = 0 → bs.getD 1 0 &&& 16 = 0 → 14 ≤ bs.length →
      bs.getD 1 0 &&& 8 = 0 →
      utf8Check (bs.drop (14 + bs.getD 13 0)) = false →
      msgDecode aesDec kc bs = none) ∧
    (bs.getD 0 0 = 2 → 10 ≤ bs.length →
      utf8Check ((bs.drop 10).take (bs.getD 9 0)) = false ∨
        utf8Check (bs.drop (10 + bs.getD 9 0)) = false →
      msgDecode aesDec kc bs = none) := by
  refine ⟨?_, ?_, ?_, ?_, ?_, ?_, ?_, ?_⟩
  · intro h
    simp [msgDecode, h]
  · intro h0 h1 h2
    by_cases hl2 : bs.length < 2
    · simp [msgDecode, hl2]
    · simp only [msgDecode]
      rw [if_neg hl2,
        if_neg (show ¬(bs.getD 0 0 = 0 ∧ bs.getD 1 0 &&& 16 ≠ 0) from
          fun hc => h0 hc.1)]
      simp only [msgDecodeBody]
      rw [if_neg h0, if_neg h1, if_neg h2]
  · intro h0 hf hlen
    by_cases hl2 : bs.length < 2
    · simp [msgDecode, hl2]
    · simp only [msgDecode]
      rw [if_neg hl2,
        if_neg (show ¬(bs.getD 0 0 = 0 ∧ bs.getD 1 0 &&& 16 ≠ 0) from
          fun hc => hc.2 hf)]
      simp only [msgDecodeBody]
      rw [if_pos h0, if_pos hlen]
  · intro h1 hlen
    by_cases hl2 : bs.length < 2
    · simp [msgDecode, hl2]
    · simp only [msgDecode]
      rw [if_neg hl2,
        if_neg (show ¬(bs.getD 0 0 = 0 ∧ bs.getD 1 0 &&& 16 ≠ 0) from
          fun hc => by rw [hc.1] at h1; exact absurd h1 (by decide))]
      simp only [msgDecodeBody]
      rw [if_neg (show ¬(bs.getD 0 0 = 0) from
          fun hq => by rw [hq] at h1; exact absurd h1 (by decide)),
        if_pos h1, if_pos hlen]
  · intro h2 hlen
    by_cases hl2 : bs.length < 2
    · simp [msgDecode, hl2]
    · simp only [msgDecode]
      rw [if_neg hl2,
        if_neg (show ¬(bs.getD 0 0 = 0 ∧ bs.getD 1 0 &&& 16 ≠ 0) from
          fun hc => by rw [hc.1] at h2; exact absurd h2 (by decide))]
      simp only [msgDecodeBody]
      rw [if_neg (show ¬(bs.getD 0 0 = 0) from
          fun hq => by rw [hq] at h2; exact absurd h2 (by decide)),
        if_neg (show ¬(bs.getD 0 0 = 1) from
          fun hq => by rw [hq] at h2; exact absurd h2 (by decide)),
        if_pos h2, if_pos hlen]
  · intro h0 hf hlen hn
    simp only [msgDecode]
    rw [if_neg (show ¬(bs.length < 2) from by omega),
      if_neg (show ¬(bs.getD 0 0 = 0 ∧ bs.getD 1 0 &&& 16 ≠ 0) from
        fun hc => hc.2 hf)]
    simp only [msgDecodeBody]
    rw [if_pos h0, if_neg (show ¬(bs.length < 14) from by omega),
      if_neg (show ¬(utf8Check ((bs.drop 14).take (bs.getD 13 0)) = true)
        from fun hq => by rw [hq] at hn; exact absurd hn (by decide))]
  · intro h0 hf hlen hm ht
    simp only [msgDecode]
    rw [if_neg (show ¬(bs.length < 2) from by omega),
      if_neg (show ¬(bs.getD 0 0 = 0 ∧ bs.getD 1 0 &&& 16 ≠ 0) from
        fun hc => hc.2 hf)]
    simp only [msgDecodeBody]
    rw [if_pos h0, if_neg (show ¬(bs.length < 14) from by omega)]
    by_cases hnick : utf8Check ((bs.drop 14).take (bs.getD 13 0)) = true
    · rw [if_pos hnick,
        if_neg (show ¬(bs.getD 1 0 &&& 8 ≠ 0) from fun hc => hc hm),
        if_neg (show ¬(utf8Check (bs.drop (14 + bs.getD 13 0)) = true) from
          fun hq => by rw [hq] at ht; exact absurd ht (by decide))]
    · rw [if_neg hnick]
  · intro h2 hlen hbad
    simp only [msgDecode]
    rw [if_neg (show ¬(bs.length < 2) from by omega),
      if_neg (show ¬(bs.getD 0 0 = 0 ∧ bs.getD 1 0 &&& 16 ≠ 0) from
        fun hc => by rw [hc.1] at h2; exact absurd h2 (by decide))]
    simp only [msgDecodeBody]
    rw [if_neg (show ¬(bs.getD 0 0 = 0) from
        fun hq => by rw [hq] at h2; exact absurd h2 (by decide)),
      if_neg (show ¬(bs.getD 0 0 = 1) from
        fun hq => by rw [hq] at h2; exact absurd h2 (by decide)),
      if_pos h2,
      if_neg (show ¬(bs.length < 10) from by omega),
      if_neg (show ¬(utf8Check ((bs.drop 10).take (bs.getD 9 0)) = true ∧
          utf8Check (bs.drop (10 + bs.getD 9 0)) = true) from fun hc => by
        rcases hbad with hb | hb
        · rw [hc.1] at hb; exact absurd hb (by decide)
        · rw [hc.2] at hb; exact absurd hb (by decide))]

/-- C10 witness: concrete malformed frames of each kind are rejected. -/
theorem msgDecode_rejects_malformed_witness :
    msgDecode env0.aesDec none [7] = none ∧
    msgDecode env0.aesDec none [9, 0, 1] = none ∧
    msgDecode env0.aesDec none [0, 0, 1, 1] = none ∧
    msgDecode env0.aesDec none [1, 0, 1] = none ∧
    msgDecode env0.aesDec none [2, 0] = none ∧
    msgDecode env0.aesDec none
      [0, 0, 5, 0, 0, 0, 1, 1, 1, 1, 1, 1, 1, 1, 255, 98] = none ∧
    msgDecode env0.aesDec none
      [0, 0, 5, 0, 0, 0, 1, 1, 1, 1, 1, 1, 1, 0, 255] = none :=
  ⟨(msgDecode_rejects_malformed env0.aesDec none [7]).1 (by decide),
   (msgDecode_rejects_malformed env0.aesDec none [9, 0, 1]).2.1
     (by decide) (by decide) (by decide),
   (msgDecode_rejects_malformed env0.aesDec none [0, 0, 1, 1]).2.2.1
     (by decide) (by decide) (by decide),
   (msgDecode_rejects_malformed env0.aesDec none [1, 0, 1]).2.2.2.1
     (by decide) (by decide),
   (msgDecode_rejects_malformed env0.aesDec none [2, 0]).2.2.2.2.1
     (by decide) (by decide),
   (msgDecode_rejects_malformed env0.aesDec none
       [0, 0, 5, 0, 0, 0, 1, 1, 1, 1, 1, 1, 1, 1, 255, 98]).2.2.2.2.2.1
     (by decide) (by decide) (by decide) (by decide),
   (msgDecode_rejects_malformed env0.aesDec none
       [0, 0, 5, 0, 0, 0, 1, 1, 1, 1, 1, 1, 1, 0, 255]).2.2.2.2.2.2.1
     (by decide) (by decide) (by decide) (by decide) (by decide)⟩

/-- A list of length 6 is a six-element literal. -/
theorem length_eq_six {l : List Nat} (h : l.length = 6) :
    ∃ a b c d e f, l = [a, b, c, d, e, f] := by
  rcases l with _ | ⟨a, _ | ⟨b, _ | ⟨c, _ | ⟨d, _ | ⟨e, _ | ⟨f, _ | ⟨g, l⟩⟩⟩⟩⟩⟩⟩
  · simp at h
  · simp at h
  · simp at h
  · simp at h
  · simp at h
  · simp at h
  · exact ⟨a, b, c, d, e, f, rfl⟩
  · simp at h

/-- `struct.pack "6s"` is the identity on 6-byte strings. -/
theorem pack6s_of_length_six {l : List Nat} (h : l.length = 6) :
    pack6s l = l := by
  rw [pack6s, ← h, List.take_left]

/-- Reading back a little-endian 32-bit field. -/
theorem readLE4_le4_append (n : Nat) (rest : List Nat)
    (h : n < 4294967296) : readLE4 (le4 n ++ rest) = n := by
  simp [readLE4, le4]
  omega

/-- Well-formedness of a message for the wire round trip: on-wire integer
fields within their ranges, a 6-byte sender, a nick of at most 255 bytes,
valid UTF-8 text fields, no pending encryption (`key_name` unset, the
Encrypted flag clear) and not a raw no-key frame. -/
def wellFormedWire (m : Msg) : Prop :=
  m.noKey = false ∧ m.keyName = none ∧ m.flags < 256 ∧
  (m.type = 0 →
    m.flags &&& 16 = 0 ∧ m.uid < 4294967296 ∧ m.ttl < 256 ∧
    m.sender.length = 6 ∧ m.nick.length ≤ 255 ∧ utf8Check m.nick = true ∧
    (m.flags &&& 8 ≠ 0 → m.mediaType < 256) ∧
    (m.flags &&& 8 = 0 → utf8Check m.text = true)) ∧
  (m.type = 1 →
    m.uid < 4294967296 ∧ m.ackType < 256 ∧ m.sender.length = 6) ∧
  (m.type = 2 →
    m.sender.length = 6 ∧ m.seen < 256 ∧ m.nick.length ≤ 255 ∧
    utf8Check m.nick = true ∧ utf8Check m.text = true)

/-- Agreement of all on-wire fields between a message and its decoded
round trip, per message type. -/
def wireEq (m m' : Msg) : Prop :=
  m'.type = m.type ∧ m'.flags = m.flags ∧
  (m.type = 0 →
    m'.uid = m.uid ∧ m'.ttl = m.ttl ∧ m'.sender = m.sender ∧
    m'.nick = m.nick ∧
    (m.flags &&& 8 ≠ 0 →
      m'.mediaType = m.mediaType ∧ m'.mediaData = m.mediaData) ∧
    (m.flags &&& 8 = 0 → m'.text = m.text)) ∧
  (m.type = 1 →
    m'.uid = m.uid ∧ m'.ackType = m.ackType ∧ m'.sender = m.sender) ∧
  (m.type = 2 →
    m'.sender = m.sender ∧ m'.seen = m.seen ∧ m'.nick = m.nick ∧
    m'.text = m.text)

/-- C4: for every well-formed Data, Ack or Hello message, encoding
succeeds and decoding the encoded frame reproduces every on-wire field. -/
theorem msgDecode_msgEncode_roundtrip
    (aesE aesD : List Nat → List Nat → List Nat → List Nat)
    (ivr : List Nat) (kcE kcD : Option Keychain) (m : Msg)
    (hty : m.type = 0 ∨ m.type = 1 ∨ m.type = 2) (h : wellFormedWire m) :
    ∃ enc, msgEncode aesE ivr kcE m = some enc ∧
      ∃ m', msgDecode aesD kcD enc = some m' ∧ wireEq m m' := by
  obtain ⟨hnk, hkn, hfl, hD, hA, hH⟩ := h
  rcases hty with hty | hty | hty
  · -- Data
    obtain ⟨hencr, hu, httl, hsl, hnlen, hnick, hmt, htx⟩ := hD hty
    obtain ⟨s0, s1, s2, s3, s4, s5, hs⟩ := length_eq_six hsl
    by_cases hmedia : m.flags &&& 8 ≠ 0
    · have henc : msgEncode aesE ivr kcE m =
          some (0 :: m.flags :: (le4 m.uid ++ (m.ttl :: (m.sender ++
            (m.nick.length :: (m.nick ++
              (m.mediaType :: m.mediaData))))))) := by
        simp [msgEncode, hnk, hty, hkn, hmedia, Nat.mod_eq_of_lt hfl,
          Nat.mod_eq_of_lt httl, Nat.mod_eq_of_lt (hmt hmedia),
          Nat.mod_eq_of_lt (show m.nick.length < 256 by omega),
          pack6s_of_length_six hsl]
      refine ⟨_, henc, ?_⟩
      rw [hs]
      have hdrop : (0 :: m.flags :: m.uid % 256 :: m.uid / 256 % 256 ::
          m.uid / 65536 % 256 :: m.uid / 16777216 % 256 :: m.ttl ::
          s0 :: s1 :: s2 :: s3 :: s4 :: s5 :: m.nick.length ::
          (m.nick ++ (m.mediaType :: m.mediaData))).drop
            (14 + m.nick.length) = m.mediaType :: m.mediaData := by
        rw [Nat.add_comm, ← List.drop_drop]
        simp
      simp [msgDecode, msgDecodeBody, wireEq, hty, hencr, hnick, hmedia,
        hdrop, List.take_left, readLE4, le4]
      exact ⟨by omega, hs.symm⟩
    · have htxt := htx (by omega)
      have henc : msgEncode aesE ivr kcE m =
          some (0 :: m.flags :: (le4 m.uid ++ (m.ttl :: (m.sender ++
            (m.nick.length :: (m.nick ++ m.text)))))) := by
        simp [msgEncode, hnk, hty, hkn, hmedia, Nat.mod_eq_of_lt hfl,
          Nat.mod_eq_of_lt httl,
          Nat.mod_eq_of_lt (show m.nick.length < 256 by omega),
          pack6s_of_length_six hsl]
      refine ⟨_, henc, ?_⟩
      rw [hs]
      have hdrop : (0 :: m.flags :: m.uid % 256 :: m.uid / 256 % 256 ::
          m.uid / 65536 % 256 :: m.uid / 16777216 % 256 :: m.ttl ::
          s0 :: s1 :: s2 :: s3 :: s4 :: s5 :: m.nick.length ::
          (m.nick ++ m.text)).drop (14 + m.nick.length) = m.text := by
        rw [Nat.add_comm, ← List.drop_drop]
        simp
      simp [msgDecode, msgDecodeBody, wireEq, hty, hencr, hnick, hmedia,
        htxt, hdrop, List.take_left, readLE4, le4]
      exact ⟨by omega, hs.symm⟩
  · -- Ack
    obtain ⟨hu, hack, hsl⟩ := hA hty
    obtain ⟨s0, s1, s2, s3, s4, s5, hs⟩ := length_eq_six hsl
    have henc : msgEncode aesE ivr kcE m =
        some (1 :: m.flags :: (le4 m.uid ++ (m.ackType :: m.sender))) := by
      simp [msgEncode, hnk, hty, Nat.mod_eq_of_lt hfl, Nat.mod_eq_of_lt hack]
    refine ⟨_, henc, ?_⟩
    rw [hs]
    simp [msgDecode, msgDecodeBody, readLE4, le4, wireEq, hty]
    exact ⟨by omega, hs.symm⟩
  · -- Hello
    obtain ⟨hsl, hseen, hnlen, hnick, htext⟩ := hH hty
    obtain ⟨s0, s1, s2, s3, s4, s5, hs⟩ := length_eq_six hsl
    have henc : msgEncode aesE ivr kcE m =
        some (2 :: m.flags :: (m.sender ++
          (m.seen :: m.nick.length :: (m.nick ++ m.text)))) := by
      simp [msgEncode, hnk, hty, Nat.mod_eq_of_lt hfl,
        Nat.mod_eq_of_lt hseen,
        Nat.mod_eq_of_lt (show m.nick.length < 256 by omega),
        pack6s_of_length_six hsl]
    refine ⟨_, henc, ?_⟩
    rw [hs]
    have hdrop : (2 :: m.flags :: s0 :: s1 :: s2 :: s3 :: s4 :: s5 ::
        m.seen :: m.nick.length :: (m.nick ++ m.text)).drop
          (10 + m.nick.length) = m.text := by
      rw [Nat.add_comm, ← List.drop_drop]
      simp
    simp [msgDecode, msgDecodeBody, wireEq, hty, hnick, htext, hdrop,
      List.take_left]
    exact hs.symm

/-- One SHA-256 round step preserves the length of the working state. -/
theorem sha256Step_length (st : List Nat) (kw : Nat × Nat) :
    (sha256Step st kw).length = st.length := by
  rcases st with _ | ⟨a, _ | ⟨b, _ | ⟨c, _ | ⟨d, _ | ⟨e, _ | ⟨f, _ | ⟨g, _ | ⟨h, _ | ⟨i, t⟩⟩⟩⟩⟩⟩⟩⟩⟩ <;>
    rfl

/-- Folding round steps preserves the working-state length. -/
theorem foldl_sha256Step_length (l : List (Nat × Nat)) :
    ∀ h : List Nat, (l.foldl sha256Step h).length = h.length := by
  induction l with
  | nil => intro h; rfl
  | cons x l ih =>
    intro h
    rw [List.foldl_cons, ih, sha256Step_length]

/-- The compression function preserves the 8-word hash length. -/
theorem sha256Compress_length (h block : List Nat) :
    (sha256Compress h block).length = h.length := by
  simp [sha256Compress, foldl_sha256Step_length]

/-- Folding compressions preserves the hash length. -/
theorem foldl_sha256Compress_length (bs : List (List Nat)) :
    ∀ h : List Nat, (bs.foldl sha256Compress h).length = h.length := by
  induction bs with
  | nil => intro h; rfl
  | cons b bs ih =>
    intro h
    rw [List.foldl_cons, ih, sha256Compress_length]

/-- Flattening 4-byte words gives four bytes per word. -/
theorem flatten_wordToBytesBE_length (ws : List Nat) :
    ((ws.map wordToBytesBE).flatten).length = 4 * ws.length := by
  induction ws with
  | nil => rfl
  | cons w ws ih =>
    simp [wordToBytesBE, ih]
    omega

/-- A SHA-256 digest is 32 bytes long. -/
theorem sha256_length (msg : List Nat) : (sha256 msg).length = 32 := by
  rw [sha256]
  rw [flatten_wordToBytesBE_length, foldl_sha256Compress_length]
  rfl

/-- Numbers below 16 have no bits at positions 4 and above. -/
theorem testBit_false_of_lt_16 {x i : Nat} (hx : x < 16) (hi : 4 ≤ i) :
    x.testBit i = false :=
  Nat.testBit_eq_false_of_lt (lt_of_lt_of_le hx (by
    calc (16 : Nat) = 2 ^ 4 := by norm_num
    _ ≤ 2 ^ i := Nat.pow_le_pow_right (by norm_num) hi))

/-- Writing a low nibble into a high-nibble-masked byte leaves the high
nibble unchanged. -/
theorem lor_low_land_f0 (a p : Nat) (hp : p < 16) :
    ((a &&& 240) ||| p) &&& 240 = a &&& 240 := by
  apply Nat.eq_of_testBit_eq
  intro i
  simp only [Nat.testBit_land, Nat.testBit_lor]
  by_cases h4 : i < 4
  · have ht : (240 : Nat).testBit i = false := by
      interval_cases i <;> decide
    simp [ht]
  · have hpb : p.testBit i = false := testBit_false_of_lt_16 hp (by omega)
    simp [hpb]

/-- Writing a low nibble into a high-nibble-masked byte makes the low
nibble exactly that value. -/
theorem lor_low_land_0f (a p : Nat) (hp : p < 16) :
    ((a &&& 240) ||| p) &&& 15 = p := by
  apply Nat.eq_of_testBit_eq
  intro i
  simp only [Nat.testBit_land, Nat.testBit_lor]
  by_cases h4 : i < 4
  · have ht : (15 : Nat).testBit i = true := by
      interval_cases i <;> decide
    have ht2 : (240 : Nat).testBit i = false := by
      interval_cases i <;> decide
    simp [ht, ht2]
  · have hpb : p.testBit i = false := testBit_false_of_lt_16 hp (by omega)
    have ht : (15 : Nat).testBit i = false :=
      testBit_false_of_lt_16 (by norm_num) (by omega)
    simp [hpb, ht]

/-- A list of length at least 7 starts with seven explicit elements. -/
theorem exists_seven_cons {l : List Nat} (h : 7 ≤ l.length) :
    ∃ a b c d e f g t, l = a :: b :: c :: d :: e :: f :: g :: t := by
  rcases l with _ | ⟨a, _ | ⟨b, _ | ⟨c, _ | ⟨d, _ | ⟨e, _ | ⟨f, _ | ⟨g, t⟩⟩⟩⟩⟩⟩⟩ <;>
    first
      | exact ⟨a, b, c, d, e, f, g, t, rfl⟩
      | (exfalso; simp at h)

/-- A list of length 4 is a four-element literal. -/
theorem length_eq_four {l : List Nat} (h : l.length = 4) :
    ∃ a b c d, l = [a, b, c, d] := by
  rcases l with _ | ⟨a, _ | ⟨b, _ | ⟨c, _ | ⟨d, _ | ⟨e, t⟩⟩⟩⟩⟩ <;>
    first
      | exact ⟨a, b, c, d, rfl⟩
      | (exfalso; simp at h)

/-- Scanning the keychain with a MAC predicate returns the looked-up entry
when its MAC matches and every other entry's MAC fails. -/
theorem find_of_mac_match (keys : Keychain) (k : String) (key body tagp : List Nat)
    (hlook : (keys.find? (fun p => p.1 == k)).map Prod.snd = some key)
    (hmatch : kcMacMatches key body tagp = true)
    (hNC : ∀ p ∈ keys, p.1 ≠ k → kcMacMatches p.2 body tagp = false) :
    keys.find? (fun p => kcMacMatches p.2 body tagp) = some (k, key) := by
  induction keys with
  | nil => simp at hlook
  | cons q rest ih =>
    by_cases hq : q.1 = k
    · rw [List.find?_cons] at hlook
      simp only [hq, beq_self_eq_true] at hlook
      simp at hlook
      rw [List.find?_cons]
      have hm : kcMacMatches q.2 body tagp = true := hlook ▸ hmatch
      simp only [hm]
      exact congrArg some (Prod.ext hq hlook)
    · rw [List.find?_cons] at hlook
      have hqq : (q.1 == k) = false := by simp [hq]
      simp only [hqq] at hlook
      rw [List.find?_cons]
      have hm := hNC q (List.mem_cons_self q rest) hq
      simp only [hm]
      exact ih hlook (fun p hp hpk => hNC p (List.mem_cons_of_mem q hp) hpk)

/-- **C2.** For any packet ≥ 14 bytes encrypted with a key present in the
keychain, `Keychain.decrypt` run over the whole keychain recovers exactly
the key name used and the original plaintext packet, provided the AES
primitive is a length-preserving inverse pair, no other key's MAC happens
to match the canonicalized ciphertext, and the packet is a well-formed
frame (at least the 7-byte plaintext header plus ≥ 7 bytes of payload). -/
theorem kcDecrypt_kcEncrypt
    (aesEnc aesDec : List Nat → List Nat → List Nat → List Nat)
    (ivrand : List Nat) (keys : Keychain) (k : String) (key P E : List Nat)
    (hAes : ∀ kk iv d, d.length % 16 = 0 →
      aesDec kk iv (aesEnc kk iv d) = d ∧ (aesEnc kk iv d).length = d.length)
    (hP : 14 ≤ P.length)
    (hIv : ivrand.length = 4)
    (hK : (keys.find? (fun p => p.1 == k)).map Prod.snd = some key)
    (hNC : ∀ p ∈ keys, p.1 ≠ k →
      kcMacMatches p.2 ((kcCanon E).take (E.length - 10))
        ((kcCanon E).drop (E.length - 10)) = false)
    (hE : kcEncrypt aesEnc ivrand keys P k = some E) :
    kcDecrypt aesDec keys E = some (k, P) := by
  obtain ⟨a0, a1, a2, a3, a4, a5, a6, t, rfl⟩ :=
    exists_seven_cons (show 7 ≤ P.length from by omega)
  obtain ⟨i0, i1, i2, i3, rfl⟩ := length_eq_four hIv
  have hPt : 7 ≤ t.length := by simp at hP; omega
  set pad := (16 - t.length % 16) % 16 with hpaddef
  set pre11 : List Nat := [a0, a1 &&& 254, a2, a3, a4, a5, 0, i0, i1, i2, i3]
    with hpre
  set hdr11 : List Nat := [a0, a1, a2, a3, a4, a5, a6, i0, i1, i2, i3]
    with hhdr
  set aesKey := (kcDeriveKeys key).1 with haesk
  set hmacKey := (kcDeriveKeys key).2 with hhmk
  set iv := sha16 pre11 with hivdef
  set ct := aesEnc aesKey iv (t ++ List.replicate pad 0) with hctdef
  set hm := (HMAC_SHA256 hmacKey (pre11 ++ ct)).take 10 with hhmdef
  set tag := hm.take 9 ++ [(hm.getD 9 0 &&& 240) ||| pad] with htagdef
  have hEeq : E = a0 :: a1 :: a2 :: a3 :: a4 :: a5 :: a6 :: i0 :: i1 :: i2 ::
      i3 :: (ct ++ tag) := by
    rw [kcEncrypt, hK] at hE
    exact (Option.some.inj hE).symm
  have h16 : (t ++ List.replicate pad 0).length % 16 = 0 := by
    simp
    omega
  have hctlen : ct.length = t.length + pad := by
    rw [hctdef, (hAes aesKey iv _ h16).2]
    simp
  have hpadlt : pad < 16 := by omega
  have hmlen : hm.length = 10 := by
    rw [hhmdef]
    simp [HMAC_SHA256, sha256_length]
  have hlen9 : (hm.take 9).length = 9 := by simp [hmlen]
  have htaglen : tag.length = 10 := by
    rw [htagdef]
    simp [hlen9]
  have hn : E.length = t.length + pad + 21 := by
    rw [hEeq]
    simp [hctlen, htaglen]
  have htake7 : E.take 7 = [a0, a1, a2, a3, a4, a5, a6] := by
    rw [hEeq]
    rfl
  have hsplit : E = (hdr11 ++ ct) ++ tag := by
    rw [hEeq, hhdr]
    rfl
  have h1110 : (hdr11 ++ ct).length = E.length - 10 := by
    rw [hn]
    simp [hhdr, hctlen]
  have hdropB : E.drop (E.length - 10) = tag := by
    rw [← h1110, hsplit]
    exact List.drop_left _ _
  have hg0 : E.getD 0 0 = a0 := by rw [hEeq]; rfl
  have hg1 : E.getD 1 0 = a1 := by rw [hEeq]; rfl
  have hg2 : E.getD 2 0 = a2 := by rw [hEeq]; rfl
  have hg3 : E.getD 3 0 = a3 := by rw [hEeq]; rfl
  have hg4 : E.getD 4 0 = a4 := by rw [hEeq]; rfl
  have hg5 : E.getD 5 0 = a5 := by rw [hEeq]; rfl
  have hd7 : E.drop 7 = ([i0, i1, i2, i3] ++ ct) ++ tag := by rw [hEeq]; rfl
  have h417 : ([i0, i1, i2, i3] ++ ct).length = E.length - 17 := by
    rw [hn]
    simp [hctlen]
  have hA : (E.drop 7).take (E.length - 17) = [i0, i1, i2, i3] ++ ct := by
    rw [hd7, ← h417]
    exact List.take_left _ _
  have hsplit2 : E = (hdr11 ++ ct ++ hm.take 9) ++
      [(hm.getD 9 0 &&& 240) ||| pad] := by
    rw [hEeq, htagdef, hhdr]
    simp
  have hidx : E.length - 1 = (hdr11 ++ ct ++ hm.take 9).length := by
    rw [hn]
    simp [hhdr, hctlen, hlen9]
  have hlast : E.getD (E.length - 1) 0 = (hm.getD 9 0 &&& 240) ||| pad := by
    rw [hidx]
    conv_lhs => rw [hsplit2]
    rw [List.getD_append_right _ _ _ _ (le_refl _)]
    simp
  have htag9 : tag.take 9 = hm.take 9 := by
    rw [htagdef]
    exact List.take_left' hlen9
  have hcanon : kcCanon E = (pre11 ++ ct) ++
      (hm.take 9 ++ [hm.getD 9 0 &&& 240]) := by
    simp only [kcCanon]
    rw [hg0, hg1, hg2, hg3, hg4, hg5, hA, hdropB, htag9, hlast,
      lor_low_land_f0 _ _ hpadlt, hpre]
    simp
  have hpclen : (pre11 ++ ct).length = E.length - 10 := by
    rw [hn]
    simp [hpre, hctlen]
  have htakeB : (kcCanon E).take (E.length - 10) = pre11 ++ ct := by
    rw [hcanon, ← hpclen]
    exact List.take_left _ _
  have hdropC : (kcCanon E).drop (E.length - 10) =
      hm.take 9 ++ [hm.getD 9 0 &&& 240] := by
    rw [hcanon, ← hpclen]
    exact List.drop_left _ _
  have hmac : kcMacMatches key (pre11 ++ ct)
      (hm.take 9 ++ [hm.getD 9 0 &&& 240]) = true := by
    rw [kcMacMatches]
    rw [← hhmk, ← hhmdef]
    exact beq_self_eq_true _
  have hfind : keys.find? (fun p => kcMacMatches p.2 (pre11 ++ ct)
      (hm.take 9 ++ [hm.getD 9 0 &&& 240])) = some (k, key) := by
    apply find_of_mac_match keys k key _ _ hK hmac
    intro p hp hpk
    have hx := hNC p hp hpk
    rw [htakeB, hdropC] at hx
    exact hx
  have hcan11 : (kcCanon E).take 11 = pre11 := by
    rw [hcanon, List.append_assoc]
    exact List.take_left' (by simp [hpre])
  have hd11 : E.drop 11 = ct ++ tag := by rw [hEeq]; rfl
  have hctl2 : ct.length = E.length - 21 := by
    rw [hn, hctlen]
    omega
  have hdrop11 : (E.drop 11).take (E.length - 21) = ct := by
    rw [hd11, ← hctl2]
    exact List.take_left _ _
  have hpadex : E.getD (E.length - 1) 0 &&& 15 = pad := by
    rw [hlast]
    exact lor_low_land_0f _ _ hpadlt
  have hplain : aesDec aesKey iv (ct) = t ++ List.replicate pad 0 := by
    rw [hctdef]
    exact (hAes _ _ _ h16).1
  have htfin : (t ++ List.replicate pad 0).length - pad = t.length := by
    simp
  simp only [kcDecrypt]
  rw [if_neg (show ¬(E.length < 22) from by omega)]
  simp only [htakeB, hdropC]
  rw [hfind]
  simp only [hcan11, hdrop11, hpadex, ← haesk, ← hivdef, hplain, htfin,
    List.take_left, htake7]
  rfl

/-- A concrete 14-byte plaintext frame used to exercise the round-trip. -/
def c2P : List Nat := [0, 1, 2, 3, 4, 5, 6, 7, 8, 9, 10, 11, 12, 13]

/-- A concrete stored (sha16-sized) key value. -/
def c2Key : List Nat := List.replicate 16 7

/-- A one-entry keychain holding `c2Key` under the name `"n"`. -/
def c2Keys : Keychain := [("n", c2Key)]

/-- The encryption of `c2P` under `c2Keys` with the identity AES pair and a
fixed IV-entropy draw. -/
def c2E : List Nat :=
  (kcEncrypt (fun _ _ d => d) [9, 9, 9, 9] c2Keys c2P "n").getD []

theorem kcDecrypt_kcEncrypt_witness :
    kcDecrypt (fun _ _ d => d) c2Keys c2E = some ("n", c2P) :=
  kcDecrypt_kcEncrypt (fun _ _ d => d) (fun _ _ d => d) [9, 9, 9, 9] c2Keys
    "n" c2Key c2P c2E
    (fun _ _ _ _ => ⟨rfl, rfl⟩)
    (by decide)
    rfl
    rfl
    (by
      intro p hp hpk
      exfalso
      apply hpk
      simp only [c2Keys, List.mem_singleton] at hp
      rw [hp])
    rfl

/-- A concrete well-formed Data message ("alice" says "hi") for the
round-trip instance. -/
def c4M : Msg :=
  { type := 0, flags := 2, uid := 305419896, ttl := 15,
    sender := [170, 187, 204, 221, 238, 1],
    nick := [97, 108, 105, 99, 101], text := [104, 105] }

theorem msgDecode_msgEncode_roundtrip_witness :
    ∃ enc, msgEncode (fun _ _ d => d) [] none c4M = some enc ∧
      ∃ m', msgDecode (fun _ _ d => d) none enc = some m' ∧ wireEq c4M m' :=
  msgDecode_msgEncode_roundtrip (fun _ _ d => d) (fun _ _ d => d) [] none none
    c4M (Or.inl rfl) (by unfold wellFormedWire; decide)

/-- A journal with room for 2 records per the spec's reading. -/
def c5H0 : HState := { histlen := 2, recordsize := 4 }

/-- The journal after appending the records `[1]` then `[2]`. -/
def c5S : HState := (historyAppend [2] (historyAppend [1] c5H0).2).2

/-- Both appends into `c5H0` succeed. -/
theorem c5_appends_ok :
    (historyAppend [1] c5H0).1 = true ∧
    (historyAppend [2] (historyAppend [1] c5H0).2).1 = true := by decide

/-- C5 counterexample: with histlen = 2 and the two records `[1]`, `[2]`
stored, `get_records(0, histlen)` does not return the stored records
newest-first — it raises (modelled `none`), because the read from the
second file runs past its end; and the call that does return both records,
`get_records(1, 2)`, returns them oldest-first, not newest-first. -/
theorem getRecords_not_newest_first :
    getRecords c5S 0 2 = none ∧
    getRecords c5S 1 2 = some [[1], [2]] ∧
    getRecords c5S 1 2 ≠ some [[2], [1]] := by decide

/-- The reachable-state invariant of the two-file journal: either only
file 0 exists and holds the most recent records; or file 0 is full
(histlen + 1 records, the older run) and file 1 holds the newest records;
or symmetrically file 1 is full and file 0 holds the newest records.  In
every case the chronological concatenation of the stored records is a
suffix of the full append history `done`, of length at least
`min done.length (histlen + 1)`. -/
def HInv (done : List (List Nat)) (h : HState) : Prop :=
  (h.file1 = [] ∧ h.file0.length = min done.length (h.histlen + 1) ∧
    h.file0 <:+ done)
  ∨ (h.file0.length = h.histlen + 1 ∧ h.file1.length ≤ h.histlen ∧
      (h.file0 ++ h.file1) <:+ done)
  ∨ (h.file1.length = h.histlen + 1 ∧ h.file0.length ≤ h.histlen ∧
      (h.file1 ++ h.file0) <:+ done)

/-- `select_file` on a single-file journal that still has room: keep
appending to file 0. -/
theorem selectFile_single (H R : Nat) (f0 : List (List Nat))
    (hle : f0.length ≤ H) :
    selectFile ⟨H, R, f0, []⟩ = (0, ⟨H, R, f0, []⟩) := by
  simp [selectFile]
  split_ifs <;> first | omega | simp_all

/-- `select_file` on a single-file journal that reached histlen + 1
records: switch to file 1. -/
theorem selectFile_single_full (H R : Nat) (f0 : List (List Nat))
    (hfull : f0.length = H + 1) :
    selectFile ⟨H, R, f0, []⟩ = (1, ⟨H, R, f0, []⟩) := by
  simp [selectFile]
  split_ifs <;> first | omega | simp_all

/-- `select_file` when file 0 is the full (older) file: append to file 1. -/
theorem selectFile_file0_full (H R : Nat) (f0 f1 : List (List Nat))
    (h0 : f0.length = H + 1) (h1 : f1.length ≤ H) :
    selectFile ⟨H, R, f0, f1⟩ = (1, ⟨H, R, f0, f1⟩) := by
  simp [selectFile]
  split_ifs <;> first | omega | simp_all

/-- `select_file` when file 1 is the full (older) file: append to file 0. -/
theorem selectFile_file1_full (H R : Nat) (f0 f1 : List (List Nat))
    (h1 : f1.length = H + 1) (h0 : f0.length ≤ H) :
    selectFile ⟨H, R, f0, f1⟩ = (0, ⟨H, R, f0, f1⟩) := by
  simp [selectFile]
  split_ifs <;> first | omega | simp_all

/-- One successful append preserves the journal invariant, extending the
history by the appended record. -/
theorem historyAppend_HInv (done : List (List Nat)) (d : List Nat) (h : HState)
    (hd : d.length ≤ h.recordsize) (hInv : HInv done h) :
    (historyAppend d h).1 = true ∧ HInv (done ++ [d]) (historyAppend d h).2 := by
  obtain ⟨H, R, f0, f1⟩ := h
  simp only at hd
  simp only [HInv] at hInv
  rcases hInv with ⟨h1, h2, h3⟩ | ⟨h1, h2, h3⟩ | ⟨h1, h2, h3⟩
  · subst h1
    by_cases hle : f0.length ≤ H
    · have hstep : historyAppend d ⟨H, R, f0, []⟩ =
          (true, ⟨H, R, f0 ++ [d], []⟩) := by
        simp only [historyAppend]
        rw [if_neg (show ¬(d.length > R) from by omega),
          selectFile_single H R f0 hle]
        simp [hFileLen]
      rw [hstep]
      refine ⟨rfl, Or.inl ⟨rfl, ?_, ?_⟩⟩
      · simp
        omega
      · obtain ⟨pre, rfl⟩ := h3
        exact ⟨pre, by simp⟩
    · have hL : f0.length = H + 1 := by omega
      by_cases hH : H = 0
      · subst hH
        have hstep : historyAppend d ⟨0, R, f0, []⟩ =
            (true, ⟨0, R, [], [d]⟩) := by
          simp only [historyAppend]
          rw [if_neg (show ¬(d.length > R) from by omega),
            selectFile_single_full 0 R f0 hL]
          simp [hFileLen]
        rw [hstep]
        exact ⟨rfl, Or.inr (Or.inr ⟨rfl, by simp, ⟨done, by simp⟩⟩)⟩
      · have hstep : historyAppend d ⟨H, R, f0, []⟩ =
            (true, ⟨H, R, f0, [d]⟩) := by
          simp only [historyAppend]
          rw [if_neg (show ¬(d.length > R) from by omega),
            selectFile_single_full H R f0 hL]
          simp [hFileLen]
          split_ifs <;> first | omega | simp
        rw [hstep]
        refine ⟨rfl, Or.inr (Or.inl ⟨hL, by simp; omega, ?_⟩)⟩
        obtain ⟨pre, rfl⟩ := h3
        exact ⟨pre, by simp⟩
  · by_cases hM : f1.length < H
    · have hstep : historyAppend d ⟨H, R, f0, f1⟩ =
          (true, ⟨H, R, f0, f1 ++ [d]⟩) := by
        simp only [historyAppend]
        rw [if_neg (show ¬(d.length > R) from by omega),
          selectFile_file0_full H R f0 f1 h1 h2]
        simp [hFileLen]
        split_ifs <;> first | omega | simp
      rw [hstep]
      refine ⟨rfl, Or.inr (Or.inl ⟨h1, by simp; omega, ?_⟩)⟩
      obtain ⟨pre, rfl⟩ := h3
      exact ⟨pre, by simp⟩
    · have hMH : f1.length = H := by omega
      have hstep : historyAppend d ⟨H, R, f0, f1⟩ =
          (true, ⟨H, R, [], f1 ++ [d]⟩) := by
        simp only [historyAppend]
        rw [if_neg (show ¬(d.length > R) from by omega),
          selectFile_file0_full H R f0 f1 h1 h2]
        simp [hFileLen]
        split_ifs <;> first | omega | simp
      rw [hstep]
      have hs : f1 <:+ done := (List.suffix_append f0 f1).trans h3
      obtain ⟨pre, rfl⟩ := hs
      exact ⟨rfl, Or.inr (Or.inr ⟨by simp [hMH], by simp, ⟨pre, by simp⟩⟩)⟩
  · by_cases hL : f0.length < H
    · have hstep : historyAppend d ⟨H, R, f0, f1⟩ =
          (true, ⟨H, R, f0 ++ [d], f1⟩) := by
        simp only [historyAppend]
        rw [if_neg (show ¬(d.length > R) from by omega),
          selectFile_file1_full H R f0 f1 h1 h2]
        simp [hFileLen]
        split_ifs <;> first | omega | simp
      rw [hstep]
      refine ⟨rfl, Or.inr (Or.inr ⟨h1, by simp; omega, ?_⟩)⟩
      obtain ⟨pre, rfl⟩ := h3
      exact ⟨pre, by simp⟩
    · have hLH : f0.length = H := by omega
      have hstep : historyAppend d ⟨H, R, f0, f1⟩ =
          (true, ⟨H, R, f0 ++ [d], []⟩) := by
        simp only [historyAppend]
        rw [if_neg (show ¬(d.length > R) from by omega),
          selectFile_file1_full H R f0 f1 h1 h2]
        simp [hFileLen]
        split_ifs <;> first | omega | simp
      rw [hstep]
      have hdl : (f1 ++ f0).length ≤ done.length := h3.length_le
      have hs : f0 <:+ done := (List.suffix_append f1 f0).trans h3
      refine ⟨rfl, Or.inl ⟨rfl, ?_, ?_⟩⟩
      · simp at hdl ⊢
        omega
      · obtain ⟨pre, rfl⟩ := hs
        exact ⟨pre, by simp⟩

/-- From any state satisfying the journal invariant with at least `histlen`
records appended, `get_records(histlen - 1, histlen)` returns exactly the
last `histlen` appended records, oldest first. -/
theorem getRecords_HInv (done : List (List Nat)) (h : HState)
    (hH : 1 ≤ h.histlen) (hinv : HInv done h)
    (hdone : h.histlen ≤ done.length) :
    getRecords h (h.histlen - 1) h.histlen =
      some (done.drop (done.length - h.histlen)) := by
  obtain ⟨H, R, f0, f1⟩ := h
  simp only at hH hdone ⊢
  simp only [HInv] at hinv
  rcases hinv with ⟨h1, h2, h3⟩ | ⟨h1, h2, h3⟩ | ⟨h1, h2, h3⟩
  · subst h1
    obtain ⟨pre, rfl⟩ := h3
    simp only [List.length_append] at h2 hdone
    have hS : H ≤ f0.length := by omega
    have hS1 : f0.length ≤ H + 1 := by omega
    have htk : (f0.drop (f0.length - H)).take H = f0.drop (f0.length - H) :=
      List.take_of_length_le (by simp; omega)
    have htgt : (pre ++ f0).drop (pre.length + f0.length - H) =
        f0.drop (f0.length - H) := by
      rw [show pre.length + f0.length - H = pre.length + (f0.length - H)
        from by omega, List.drop_append]
    simp [getRecords, historyNumRecords,
      show ¬(f0.length = 0) from by omega,
      show ¬(f0.length ≤ H - 1) from by omega,
      show (0 : Nat) < f0.length from by omega,
      show f0.length - (H - 1) - 1 = f0.length - H from by omega,
      show min (f0.length - (f0.length - H)) H = H from by omega,
      show ¬(H = 0) from by omega,
      show f0.length - H + H ≤ f0.length from by omega,
      htk, htgt]
  · obtain ⟨pre, rfl⟩ := h3
    simp only [List.length_append] at hdone
    have hM : f1.length ≤ H := h2
    have htgt : (pre ++ (f0 ++ f1)).drop
        (pre.length + (f0.length + f1.length) - H) =
        f0.drop (f1.length + 1) ++ f1 := by
      rw [show pre.length + (f0.length + f1.length) - H =
        pre.length + (f1.length + 1) from by omega, List.drop_append,
        List.drop_append_of_le_length (by omega)]
    have htk : (f0.drop (f1.length + 1)).take (H - f1.length) =
        f0.drop (f1.length + 1) :=
      List.take_of_length_le (by simp; omega)
    have htk1 : (f1.take f1.length) = f1 := List.take_of_length_le (le_refl _)
    by_cases hMH : f1.length = H
    · simp [getRecords, historyNumRecords, h1, hMH,
        show ¬(H + 1 + H = 0) from by omega,
        show ¬(H + 1 + H ≤ H - 1) from by omega,
        show H + 1 + H - (H - 1) - 1 = H + 1 from by omega,
        show min (H + 1 - (H + 1)) H = 0 from by omega,
        show ¬(H = 0) from by omega, htk1, htgt, hMH]
      rw [h1, hMH] at htgt
      rw [htgt, List.drop_eq_nil_of_le (by omega), ← hMH]
      simp
    · by_cases hM0 : f1.length = 0
      · have hf1 : f1 = [] := List.length_eq_zero.mp hM0
        subst hf1
        simp only [List.length_nil] at htgt htk
        have htk0 : (f0.drop 1).take H = f0.drop 1 :=
          List.take_of_length_le (by simp; omega)
        simp [getRecords, historyNumRecords, h1,
          show ¬(H + 1 = 0) from by omega,
          show ¬(H + 1 ≤ H - 1) from by omega,
          show H + 1 - (H - 1) - 1 = 1 from by omega,
          show min (H + 1 - 1) H = H from by omega,
          show ¬(H = 0) from by omega,
          show 1 + H ≤ H + 1 from by omega, htk0]
        rw [show pre.length + (H + 1) - H = pre.length + 1 from by omega,
          List.drop_append, List.drop_one]
        exact List.take_of_length_le (by simp; omega)
      · have hne : f1 ≠ [] := fun hh => hM0 (by rw [hh]; rfl)
        rw [h1] at htgt
        simp [getRecords, historyNumRecords, h1, hne,
          show ¬(H + 1 + f1.length = 0) from by omega,
          show ¬(H + 1 + f1.length ≤ H - 1) from by omega,
          show H + 1 + f1.length - (H - 1) - 1 = f1.length + 1 from by omega,
          show f1.length < H + 1 from by omega,
          show min (H + 1 - (f1.length + 1)) H = H - f1.length from by omega,
          show ¬(H - f1.length = 0) from by omega,
          show ¬(H = 0) from by omega,
          show f1.length + 1 + (H - f1.length) ≤ H + 1 from by omega,
          show H - (H - f1.length) = f1.length from by omega,
          show f1.length + 1 - (H + 1) = 0 from by omega,
          htk, htk1, htgt]
  · obtain ⟨pre, rfl⟩ := h3
    simp only [List.length_append] at hdone
    have hL : f0.length ≤ H := h2
    have htgt : (pre ++ (f1 ++ f0)).drop
        (pre.length + (f1.length + f0.length) - H) =
        f1.drop (f0.length + 1) ++ f0 := by
      rw [show pre.length + (f1.length + f0.length) - H =
        pre.length + (f0.length + 1) from by omega, List.drop_append,
        List.drop_append_of_le_length (by omega)]
    have htk : (f1.drop (f0.length + 1)).take (H - f0.length) =
        f1.drop (f0.length + 1) :=
      List.take_of_length_le (by simp; omega)
    have htk1 : (f0.take f0.length) = f0 := List.take_of_length_le (le_refl _)
    by_cases hLH : f0.length = H
    · simp [getRecords, historyNumRecords, h1, hLH,
        show ¬(H + (H + 1) = 0) from by omega,
        show ¬(H + (H + 1) ≤ H - 1) from by omega,
        show H + (H + 1) - (H - 1) - 1 = H + 1 from by omega,
        show min (H + 1 - (H + 1)) H = 0 from by omega,
        show ¬(H = 0) from by omega, htk1, htgt, hLH]
      rw [h1, hLH] at htgt
      rw [htgt, List.drop_eq_nil_of_le (by omega), ← hLH]
      simp
    · by_cases hL0 : f0.length = 0
      · have hf0 : f0 = [] := List.length_eq_zero.mp hL0
        subst hf0
        simp only [List.length_nil] at htgt htk
        have htk0 : (f1.drop 1).take H = f1.drop 1 :=
          List.take_of_length_le (by simp; omega)
        simp [getRecords, historyNumRecords, h1,
          show ¬(H + 1 = 0) from by omega,
          show ¬(H + 1 ≤ H - 1) from by omega,
          show H + 1 - (H - 1) - 1 = 1 from by omega,
          show min (H + 1 - 1) H = H from by omega,
          show ¬(H = 0) from by omega,
          show 1 + H ≤ H + 1 from by omega, htk0]
        rw [show pre.length + (H + 1) - H = pre.length + 1 from by omega,
          List.drop_append, List.drop_one]
        exact List.take_of_length_le (by simp; omega)
      · have hne0 : f0 ≠ [] := fun hh => hL0 (by rw [hh]; rfl)
        rw [h1] at htgt
        simp [getRecords, historyNumRecords, h1, hne0,
          show ¬(f0.length + (H + 1) = 0) from by omega,
          show ¬(H + 1 < f0.length) from by omega,
          show ¬(f0.length + (H + 1) ≤ H - 1) from by omega,
          show f0.length + (H + 1) - (H - 1) - 1 = f0.length + 1 from by omega,
          show min (H + 1 - (f0.length + 1)) H = H - f0.length from by omega,
          show ¬(H - f0.length = 0) from by omega,
          show ¬(H = 0) from by omega,
          show f0.length + 1 + (H - f0.length) ≤ H + 1 from by omega,
          show H - (H - f0.length) = f0.length from by omega,
          show f0.length + 1 - (H + 1) = 0 from by omega,
          htk, htk1, htgt]

/-- `select_file` never changes the configured histlen / recordsize. -/
theorem selectFile_fields (h : HState) :
    (selectFile h).2.histlen = h.histlen ∧
    (selectFile h).2.recordsize = h.recordsize := by
  simp only [selectFile]
  split_ifs <;> simp

/-- `History.append` never changes the configured histlen / recordsize. -/
theorem historyAppend_fields (d : List Nat) (h : HState) :
    (historyAppend d h).2.histlen = h.histlen ∧
    (historyAppend d h).2.recordsize = h.recordsize := by
  have hsf := selectFile_fields h
  simp only [historyAppend]
  split_ifs <;> simp [hsf.1, hsf.2]

/-- Folding a list of appends over an invariant state preserves the
invariant (extending the history) and the configuration fields. -/
theorem foldl_historyAppend_HInv (ds : List (List Nat)) :
    ∀ (done : List (List Nat)) (h : HState), HInv done h →
      (∀ d ∈ ds, d.length ≤ h.recordsize) →
      HInv (done ++ ds) (ds.foldl (fun h d => (historyAppend d h).2) h) ∧
      (ds.foldl (fun h d => (historyAppend d h).2) h).histlen = h.histlen ∧
      (ds.foldl (fun h d => (historyAppend d h).2) h).recordsize =
        h.recordsize := by
  induction ds with
  | nil =>
    intro done h hi _
    exact ⟨by simpa using hi, rfl, rfl⟩
  | cons d ds ih =>
    intro done h hi hall
    have hstep := historyAppend_HInv done d h (hall d (List.mem_cons_self d ds)) hi
    have hfl := historyAppend_fields d h
    have hrest := ih (done ++ [d]) (historyAppend d h).2 hstep.2
      (fun e he => by rw [hfl.2]; exact hall e (List.mem_cons_of_mem d he))
    rw [List.foldl_cons]
    refine ⟨by simpa [List.append_assoc] using hrest.1, ?_, ?_⟩
    · rw [hrest.2.1, hfl.1]
    · rw [hrest.2.2, hfl.2]

/-- The journal state produced by appending the records `ds` in order into
a fresh `History(histlen published = H, recordsize = R)`. -/
def histFold (R H : Nat) (ds : List (List Nat)) : HState :=
  ds.foldl (fun h d => (historyAppend d h).2) { histlen := H, recordsize := R }

/-- C5 (amended): after appending any sequence of at least `histlen`
records that fit the record size into a fresh journal, the read the CLI
actually issues, `get_records(histlen - 1, histlen)`, returns exactly the
last `histlen` appended records — in oldest-first order. -/
theorem history_retention (R H : Nat) (ds : List (List Nat))
    (hH : 1 ≤ H) (hlen : H ≤ ds.length)
    (hall : ∀ d ∈ ds, d.length ≤ R) :
    getRecords (histFold R H ds) (H - 1) H =
      some (ds.drop (ds.length - H)) := by
  have h0 : HInv [] ({ histlen := H, recordsize := R } : HState) := by
    simp [HInv]
  have hf := foldl_historyAppend_HInv ds [] _ h0 (fun d hd => hall d hd)
  have hinv : HInv ds (histFold R H ds) := by simpa [histFold] using hf.1
  have hh : (histFold R H ds).histlen = H := by simpa [histFold] using hf.2.1
  have hres := getRecords_HInv ds (histFold R H ds) (by rw [hh]; omega) hinv
    (by rw [hh]; exact hlen)
  rw [hh] at hres
  exact hres

theorem history_retention_witness :
    getRecords (histFold 4 2 [[1], [2], [3]]) 1 2 = some [[2], [3]] := by
  have hres := history_retention 4 2 [[1], [2], [3]] (by decide) (by decide)
    (by decide)
  simpa using hres

end FreakWAN
